import Mathlib

/-!
# Verification of the `suds` WSDL-to-SOAP-client generator

A shallow embedding, in Lean 4, of the core of the `suds` repository:

* the namespace interning table (`src/wsdl/src/types.rs`),
* the intermediate model (`Definition`, `TypeKind`, `FieldKind`, ...),
* the resolver (`src/codegen/src/preprocessor.rs`),
* the identifier disambiguator (`State::rust_name` in `src/codegen/src/codegen.rs`),
* the WSDL/XSD stack-machine parser (`src/wsdl/src/parser.rs`),
* the runtime semantics of the generated `ToXml`/`FromXml` implementations
  together with the SOAP envelope framing (`src/util/src/soap.rs`,
  `src/util/src/xml.rs`, and the code emitted by `src/codegen/src/codegen.rs`).

Rust `HashMap`s are modelled as association lists with insert-or-replace
update, `Vec` stacks as Lean lists with the top at the head, fallible code
returns an explicit outcome type in which `unimplemented!()` panics are a
distinguished constructor, and the decimal rendering performed by Rust's
`format!`/`parse` is modelled by executable digit-level functions.
-/

namespace Suds

/-! ## Decimal formatting and parsing

Models Rust's `Display`/`FromStr` round-trip for the integral primitive types
(`isize`, `u16`, `usize`) as used by the generated serialization code
(`format!("{}", self.field)` and `text.parse()`), and by
`format_ident!("{}{}", name, value)` in the identifier disambiguator. -/

/-- One decimal digit as a character (`0 ≤ d ≤ 9` expected). -/
def toDigitChar (d : Nat) : Char := Char.ofNat (48 + d)

/-- The numeric value of a decimal digit character, if it is one. -/
def digitVal (c : Char) : Option Nat :=
  if 48 ≤ c.toNat ∧ c.toNat ≤ 57 then some (c.toNat - 48) else none

/-- Fuel-driven digit extraction (structural recursion so that concrete
values evaluate in the kernel; `fuel > n` always suffices). -/
def formatNatAux : Nat → Nat → List Char
  | 0, _ => []
  | fuel + 1, n =>
    if n < 10 then [toDigitChar n]
    else formatNatAux fuel (n / 10) ++ [toDigitChar (n % 10)]

/-- Decimal rendering of a natural number, most significant digit first
(the behaviour of Rust's `Display` for unsigned integers). -/
def formatNat (n : Nat) : List Char := formatNatAux (n + 1) n

theorem formatNatAux_fuel_irrel :
    ∀ (n fuel fuel' : Nat), n < fuel → n < fuel' →
      formatNatAux fuel n = formatNatAux fuel' n := by
  intro n
  induction n using Nat.strong_induction_on with
  | _ n ih =>
    intro fuel fuel' hf hf'
    match fuel, fuel' with
    | f + 1, f' + 1 =>
      rw [formatNatAux, formatNatAux]
      by_cases h10 : n < 10
      · rw [if_pos h10, if_pos h10]
      · rw [if_neg h10, if_neg h10]
        have hdiv : n / 10 < n := Nat.div_lt_self (by omega) (by omega)
        rw [ih (n / 10) hdiv f f' (by omega) (by omega)]

/-- The defining equation of `formatNat` in its natural recursive form. -/
theorem formatNat_eq (n : Nat) :
    formatNat n =
      if n < 10 then [toDigitChar n]
      else formatNat (n / 10) ++ [toDigitChar (n % 10)] := by
  show formatNatAux (n + 1) n = _
  rw [formatNatAux]
  by_cases h10 : n < 10
  · rw [if_pos h10, if_pos h10]
  · rw [if_neg h10, if_neg h10]
    have hdiv : n / 10 < n := Nat.div_lt_self (by omega) (by omega)
    rw [formatNatAux_fuel_irrel (n / 10) n (n / 10 + 1) (by omega) (by omega)]
    rfl

/-- Fold a digit string (most significant first) onto an accumulator;
`none` as soon as a non-digit character appears. -/
def parseNatLoop (acc : Nat) : List Char → Option Nat
  | [] => some acc
  | c :: cs =>
    match digitVal c with
    | some d => parseNatLoop (acc * 10 + d) cs
    | none => none

/-- Decimal parsing of a natural number (the behaviour of Rust's `FromStr`
for unsigned integers on the strings produced by `Display`). -/
def parseNat (cs : List Char) : Option Nat :=
  if cs.isEmpty then none else parseNatLoop 0 cs

theorem digitVal_toDigitChar {d : Nat} (h : d < 10) : digitVal (toDigitChar d) = some d := by
  interval_cases d <;> decide

theorem parseNatLoop_append (acc : Nat) (xs ys : List Char) :
    parseNatLoop acc (xs ++ ys) =
      (parseNatLoop acc xs).bind fun a => parseNatLoop a ys := by
  induction xs generalizing acc with
  | nil => rfl
  | cons c cs ih =>
    simp only [List.cons_append, parseNatLoop]
    cases digitVal c with
    | none => rfl
    | some d => exact ih _

theorem formatNat_ne_nil (n : Nat) : formatNat n ≠ [] := by
  rw [formatNat_eq]
  split <;> simp

theorem parseNatLoop_formatNat (n : Nat) : parseNatLoop 0 (formatNat n) = some n := by
  suffices h : ∀ n acc, parseNatLoop acc (formatNat n) = some (acc * 10 ^ (formatNat n).length + n) by
    have := h n 0; simpa using this
  intro n
  induction n using Nat.strong_induction_on with
  | _ n ih =>
    intro acc
    rw [formatNat_eq]
    split
    · next h =>
      simp [parseNatLoop, digitVal_toDigitChar h]
    · next h =>
      have hlt : n / 10 < n := Nat.div_lt_self (by omega) (by omega)
      rw [parseNatLoop_append, ih _ hlt acc]
      simp only [Option.some_bind, parseNatLoop, digitVal_toDigitChar (Nat.mod_lt n (by omega))]
      simp only [List.length_append, List.length_cons, List.length_nil]
      have hdm : n / 10 * 10 + n % 10 = n := by omega
      generalize (formatNat (n / 10)).length = L
      congr 1
      calc (acc * 10 ^ L + n / 10) * 10 + n % 10
          = acc * (10 ^ L * 10) + (n / 10 * 10 + n % 10) := by ring
        _ = acc * 10 ^ (L + (0 + 1)) + n := by rw [hdm, pow_succ]

theorem parseNat_formatNat (n : Nat) : parseNat (formatNat n) = some n := by
  unfold parseNat
  rw [if_neg (by simp [formatNat_ne_nil])]
  exact parseNatLoop_formatNat n

theorem formatNat_injective : Function.Injective formatNat := by
  intro a b h
  have := parseNat_formatNat a
  rw [h, parseNat_formatNat b] at this
  exact (Option.some.injEq _ _).mp this |>.symm

theorem formatNat_head (n : Nat) : ∃ d cs, d < 10 ∧ formatNat n = toDigitChar d :: cs := by
  induction n using Nat.strong_induction_on with
  | _ n ih =>
    rw [formatNat_eq]
    split
    · next h => exact ⟨n, [], h, rfl⟩
    · next h =>
      obtain ⟨d, cs, hd, hfn⟩ := ih (n / 10) (Nat.div_lt_self (by omega) (by omega))
      exact ⟨d, cs ++ [toDigitChar (n % 10)], hd, by rw [hfn]; rfl⟩

theorem toDigitChar_ne_dash {d : Nat} (h : d < 10) : toDigitChar d ≠ '-' := by
  interval_cases d <;> decide

/-- Decimal rendering of a signed integer (Rust `Display` for `isize`). -/
def formatInt (i : Int) : List Char :=
  if i < 0 then '-' :: formatNat i.natAbs else formatNat i.natAbs

/-- Decimal parsing of a signed integer (Rust `FromStr` for `isize`,
restricted to the sign handling exercised by `Display` output). -/
def parseInt (cs : List Char) : Option Int :=
  match cs with
  | [] => none
  | c :: rest =>
    if c = '-' then (parseNat rest).map fun n => -(n : Int)
    else (parseNat (c :: rest)).map fun n => (n : Int)

theorem parseInt_formatInt (i : Int) : parseInt (formatInt i) = some i := by
  unfold formatInt
  split
  · next h =>
    have h1 : parseInt ('-' :: formatNat i.natAbs)
        = (parseNat (formatNat i.natAbs)).map fun n => -(n : Int) := rfl
    rw [h1, parseNat_formatNat]
    simp only [Option.bind_eq_bind, Option.some_bind, Option.map_some', Option.pure_def,
      Option.some.injEq]
    omega
  · next h =>
    obtain ⟨d, cs, hd, hfn⟩ := formatNat_head i.natAbs
    rw [hfn, parseInt, if_neg (toDigitChar_ne_dash hd), ← hfn, parseNat_formatNat]
    simp only [Option.bind_eq_bind, Option.some_bind, Option.map_some', Option.pure_def,
      Option.some.injEq]
    omega

/-- Rendering of a boolean (Rust `Display` for `bool`). -/
def formatBool (b : Bool) : List Char :=
  if b then ['t', 'r', 'u', 'e'] else ['f', 'a', 'l', 's', 'e']

/-- Parsing of a boolean (Rust `FromStr` for `bool` accepts exactly
`"true"` and `"false"`). -/
def parseBool (cs : List Char) : Option Bool :=
  if cs = ['t', 'r', 'u', 'e'] then some true
  else if cs = ['f', 'a', 'l', 's', 'e'] then some false
  else none

theorem parseBool_formatBool (b : Bool) : parseBool (formatBool b) = some b := by
  cases b <;> decide

/-! ## The namespace table and namespaced names

Embedding of `Namespaces` and `NamespacedName` from `src/wsdl/src/types.rs`.
`Namespaces` wraps a `Vec<String>` of URIs; it is modelled as a `List String`. -/

/-- `Namespaces(Vec<String>)` — the interning table of namespace URIs. -/
abbrev Namespaces := List String

/-- `Namespaces::index_of`: position of the first entry equal to `ns`
(`self.0.iter().position(|value| value == namespace)`). -/
def Namespaces.index_of : Namespaces → String → Option Nat
  | [], _ => none
  | x :: xs, ns => if x = ns then some 0 else (Namespaces.index_of xs ns).map (· + 1)

/-- `Namespaces::add_or_get`: return the index of `ns` if present, else append
it and return the fresh index (`self.0.len()` before the push). The Rust
method mutates `self` and returns the index; the model returns both. -/
def Namespaces.add_or_get (l : Namespaces) (ns : String) : Nat × Namespaces :=
  match l.index_of ns with
  | some index => (index, l)
  | none => (List.length l, l ++ [ns])

/-- `NamespacedName { namespace_idx: usize, name: String }`. -/
structure NamespacedName where
  namespace_idx : Nat
  name : String
deriving DecidableEq

/-- `NamespacedName::new`: intern the URI and pair the index with the local
name; returns the updated table alongside, standing for the `&mut` argument. -/
def NamespacedName.new (namespaces : Namespaces) (namespace_ : String) (name : String) :
    NamespacedName × Namespaces :=
  let (idx, namespaces') := namespaces.add_or_get namespace_
  (⟨idx, name⟩, namespaces')

/-- `NamespacedName::index`. -/
def NamespacedName.index (n : NamespacedName) : Nat := n.namespace_idx

theorem index_of_append_of_none {l : Namespaces} {ns : String}
    (h : l.index_of ns = none) :
    Namespaces.index_of (l ++ [ns]) ns = some (List.length l) := by
  induction l with
  | nil => simp [Namespaces.index_of]
  | cons x xs ih =>
    rw [Namespaces.index_of] at h
    by_cases hx : x = ns
    · simp [hx] at h
    · rw [if_neg hx] at h
      have h' : Namespaces.index_of xs ns = none := by
        cases hxs : Namespaces.index_of xs ns with
        | none => rfl
        | some v => rw [hxs] at h; simp at h
      show Namespaces.index_of (x :: (xs ++ [ns])) ns = _
      rw [Namespaces.index_of, if_neg hx, ih h']
      simp

theorem index_of_append_stable {l : Namespaces} {ns' : String} {j : Nat} (x : String)
    (h : l.index_of ns' = some j) :
    Namespaces.index_of (l ++ [x]) ns' = some j := by
  induction l generalizing j with
  | nil => simp [Namespaces.index_of] at h
  | cons y ys ih =>
    rw [Namespaces.index_of] at h
    show Namespaces.index_of (y :: (ys ++ [x])) ns' = some j
    rw [Namespaces.index_of]
    by_cases hy : y = ns'
    · simpa [hy] using h
    · rw [if_neg hy] at h ⊢
      obtain ⟨j', hj', rfl⟩ := Option.map_eq_some'.mp h
      rw [ih hj']
      rfl

/-- **C8.** `Namespaces::add_or_get` is a stable get-or-insert: if
`add_or_get ns` returns index `i`, then `index_of ns` on the updated table
returns `some i`; running `add_or_get ns` once more returns the same index and
leaves the table unchanged; and no `add_or_get` call moves the index of a URI
that is already in the table (the table is append-only with stable indices). -/
theorem add_or_get_stable (l : Namespaces) (ns : String) :
    Namespaces.index_of (l.add_or_get ns).2 ns = some (l.add_or_get ns).1 ∧
    Namespaces.add_or_get (l.add_or_get ns).2 ns = l.add_or_get ns ∧
    ∀ ns' j, l.index_of ns' = some j →
      Namespaces.index_of (l.add_or_get ns).2 ns' = some j := by
  unfold Namespaces.add_or_get
  cases hio : l.index_of ns with
  | some i =>
    refine ⟨hio, ?_, fun ns' j hj => hj⟩
    simp [Namespaces.add_or_get, hio]
  | none =>
    have happ := index_of_append_of_none hio
    refine ⟨happ, ?_, fun ns' j hj => index_of_append_stable ns hj⟩
    simp [Namespaces.add_or_get, happ]

/-- Witness for **C8** at a concrete table. -/
theorem add_or_get_stable_witness :
    Namespaces.index_of (Namespaces.add_or_get ["urn:a", "urn:b"] "urn:c").2 "urn:b" = some 1 :=
  (add_or_get_stable ["urn:a", "urn:b"] "urn:c").2.2 "urn:b" 1 (by decide)

/-! ## The intermediate model

The typed AST of `src/wsdl/src/types.rs`. The `types.rs` file in the tree
predates the `Simple`/`Alias` variants and the `FieldKind` enum, but both the
parser (`src/wsdl/src/parser.rs`, which constructs `TypeKind::Simple`,
`TypeKind::Alias`, `FieldKind::Type` and `FieldKind::Inner`) and the code
generator (`src/codegen/src/codegen.rs`, which matches on all of them) pin
down their exact shape, which also matches the specification's data model. -/

mutual

/-- `TypeKind`: `Struct(Vec<Field>)`, `Simple(NamespacedName)`,
`Alias(NamespacedName)`. -/
inductive TypeKind where
  | Struct (fields : List Field)
  | Simple (base : NamespacedName)
  | Alias (target : NamespacedName)

/-- `FieldKind`: a reference to a named type, or an anonymous inline type. -/
inductive FieldKind where
  | Ty (ty : NamespacedName)
  | Inner (kind : TypeKind)

/-- `Field { name: NamespacedName, ty: FieldKind }` (as an inductive because it
is mutually recursive with `TypeKind`). `FieldKind::Type` is rendered `Ty`
because `Type` is a Lean keyword. -/
inductive Field where
  | mk (name : NamespacedName) (ty : FieldKind)

end

mutual

/-- Decidable equality for `TypeKind` (hand-written: mutual inductives have no
derive handler in this Lean version). -/
def TypeKind.decEq : (a b : TypeKind) → Decidable (a = b)
  | .Struct fs, .Struct gs =>
    match Field.decEqList fs gs with
    | isTrue h => isTrue (by rw [h])
    | isFalse h => isFalse (fun hc => h (by cases hc; rfl))
  | .Simple a, .Simple b =>
    match decEq a b with
    | isTrue h => isTrue (by rw [h])
    | isFalse h => isFalse (fun hc => h (by cases hc; rfl))
  | .Alias a, .Alias b =>
    match decEq a b with
    | isTrue h => isTrue (by rw [h])
    | isFalse h => isFalse (fun hc => h (by cases hc; rfl))
  | .Struct _, .Simple _ => isFalse (fun h => TypeKind.noConfusion h)
  | .Struct _, .Alias _ => isFalse (fun h => TypeKind.noConfusion h)
  | .Simple _, .Struct _ => isFalse (fun h => TypeKind.noConfusion h)
  | .Simple _, .Alias _ => isFalse (fun h => TypeKind.noConfusion h)
  | .Alias _, .Struct _ => isFalse (fun h => TypeKind.noConfusion h)
  | .Alias _, .Simple _ => isFalse (fun h => TypeKind.noConfusion h)

/-- Decidable equality for `FieldKind`. -/
def FieldKind.decEq : (a b : FieldKind) → Decidable (a = b)
  | .Ty a, .Ty b =>
    match decEq a b with
    | isTrue h => isTrue (by rw [h])
    | isFalse h => isFalse (fun hc => h (by cases hc; rfl))
  | .Inner k, .Inner l =>
    match TypeKind.decEq k l with
    | isTrue h => isTrue (by rw [h])
    | isFalse h => isFalse (fun hc => h (by cases hc; rfl))
  | .Ty _, .Inner _ => isFalse (fun h => FieldKind.noConfusion h)
  | .Inner _, .Ty _ => isFalse (fun h => FieldKind.noConfusion h)

/-- Decidable equality for `Field`. -/
def Field.decEq : (a b : Field) → Decidable (a = b)
  | .mk n t, .mk m u =>
    match decEq n m with
    | isTrue h1 =>
      match FieldKind.decEq t u with
      | isTrue h2 => isTrue (by rw [h1, h2])
      | isFalse h2 => isFalse (fun hc => h2 (by cases hc; rfl))
    | isFalse h1 => isFalse (fun hc => h1 (by cases hc; rfl))

/-- Decidable equality for `List Field`. -/
def Field.decEqList : (a b : List Field) → Decidable (a = b)
  | [], [] => isTrue rfl
  | x :: xs, y :: ys =>
    match Field.decEq x y with
    | isTrue h1 =>
      match Field.decEqList xs ys with
      | isTrue h2 => isTrue (by rw [h1, h2])
      | isFalse h2 => isFalse (fun hc => h2 (by cases hc; rfl))
    | isFalse h1 => isFalse (fun hc => h1 (by cases hc; rfl))
  | [], _ :: _ => isFalse (fun h => List.noConfusion h)
  | _ :: _, [] => isFalse (fun h => List.noConfusion h)

end

instance : DecidableEq TypeKind := TypeKind.decEq

instance : DecidableEq FieldKind := FieldKind.decEq

instance : DecidableEq Field := Field.decEq

/-- Projection for `Field.name`. -/
def Field.name : Field → NamespacedName
  | .mk n _ => n

/-- Projection for `Field.ty`. -/
def Field.ty : Field → FieldKind
  | .mk _ t => t

/-- `Type { name, kind }` (named `TypeDecl` because `Type` is a Lean keyword). -/
structure TypeDecl where
  name : NamespacedName
  kind : TypeKind
deriving DecidableEq

/-- `Message { name, parts: Vec<Field> }`. -/
structure Message where
  name : NamespacedName
  parts : List Field
deriving DecidableEq

/-- `Operation { name, documentation, input, output }`. -/
structure Operation where
  name : NamespacedName
  documentation : Option String
  input : Option NamespacedName
  output : Option NamespacedName
deriving DecidableEq

/-- `PortType { name, operations }`. -/
structure PortType where
  name : NamespacedName
  operations : List Operation
deriving DecidableEq

/-- `BindingOperation { name, action, style, input, output }`. -/
structure BindingOperation where
  name : NamespacedName
  action : String
  style : String
  input : Option String
  output : Option String
deriving DecidableEq

/-- `Binding { name, ty, transport, operations }`. -/
structure Binding where
  name : NamespacedName
  ty : NamespacedName
  transport : String
  operations : List BindingOperation
deriving DecidableEq

/-- `Port { name, binding, location }`. -/
structure Port where
  name : NamespacedName
  binding : NamespacedName
  location : String
deriving DecidableEq

/-- `Service { name, ports }`. -/
structure Service where
  name : NamespacedName
  ports : List Port
deriving DecidableEq

/-- `Definition` — the aggregate intermediate model. -/
structure Definition where
  types : List TypeDecl := []
  messages : List Message := []
  port_types : List PortType := []
  bindings : List Binding := []
  services : List Service := []
deriving DecidableEq

/-! ## Errors and outcomes

`Error` from `src/wsdl/src/error.rs`. Payloads coming from external crates
(`url::ParseError`, `std::io::Error`, `quick_xml::Error`, `reqwest::Error`)
are dropped; the `String` payload of `UnsupportedScheme` is kept. Note the
enum has exactly these six variants — in particular it has no variant for
structural (WSDL/XSD-shape) violations; those sites in the code call
`unimplemented!()`, which aborts the process. `Outcome` distinguishes a
returned error value (`err`) from such a panic (`panic`); `nofuel` is the
model's bookkeeping for exhausting the recursion budget on `import` chains
and corresponds to no behaviour of the Rust code. -/

/-- The `Error` enum of `src/wsdl/src/error.rs`. -/
inductive Error where
  | UrlParseError
  | PathConversionError
  | FileOpenError
  | ReqwestError
  | UnsupportedScheme (scheme : String)
  | XmlParseError
deriving DecidableEq

/-- Outcome of running a fallible/panicking piece of Rust code. -/
inductive Outcome (α : Type) where
  | ok (a : α)
  | err (e : Error)
  | panic
  | nofuel
deriving DecidableEq

/-- Monadic bind on outcomes: failures propagate. -/
def Outcome.bind {α β : Type} : Outcome α → (α → Outcome β) → Outcome β
  | .ok a, f => f a
  | .err e, _ => .err e
  | .panic, _ => .panic
  | .nofuel, _ => .nofuel

instance : Monad Outcome where
  pure := .ok
  bind := Outcome.bind

theorem Outcome.ok_bind {α β : Type} (a : α) (f : α → Outcome β) :
    Outcome.bind (.ok a) f = f a := rfl

theorem Outcome.bind_eq_ok {α β : Type} {x : Outcome α} {f : α → Outcome β} {b : β}
    (h : Outcome.bind x f = .ok b) : ∃ a, x = .ok a ∧ f a = .ok b := by
  cases x with
  | ok a => exact ⟨a, rfl, h⟩
  | err e => cases h
  | panic => cases h
  | nofuel => cases h

/-- `mapOutcome f xs` — the for-loop-with-push pattern used by the Rust code,
aborting at the first failure. -/
def mapOutcome {α β : Type} (f : α → Outcome β) : List α → Outcome (List β)
  | [] => .ok []
  | x :: xs =>
    Outcome.bind (f x) fun y =>
      Outcome.bind (mapOutcome f xs) fun ys => .ok (y :: ys)

theorem mapOutcome_ok_forall₂ {α β : Type} {f : α → Outcome β} {xs : List α} {ys : List β}
    (h : mapOutcome f xs = .ok ys) : List.Forall₂ (fun x y => f x = .ok y) xs ys := by
  induction xs generalizing ys with
  | nil => cases h; exact List.Forall₂.nil
  | cons x xs ih =>
    rw [mapOutcome] at h
    obtain ⟨y, hy, h2⟩ := Outcome.bind_eq_ok h
    obtain ⟨ys', hys', h3⟩ := Outcome.bind_eq_ok h2
    cases h3
    exact List.Forall₂.cons hy (ih hys')

/-! ## The resolver / preprocessor

Embedding of `src/codegen/src/preprocessor.rs` and the resolved model from
`src/codegen/src/types.rs` (namespace `cg`). Unresolved references hit
`unimplemented!()` in the Rust code, i.e. `Outcome.panic` here. -/

namespace cg

/-- Resolved `Port { name, location, operations }` (codegen `types.rs`). -/
structure Port where
  name : NamespacedName
  location : String
  operations : List Operation
deriving DecidableEq

/-- Resolved `Service { name, ports }` (codegen `types.rs`). -/
structure Service where
  name : NamespacedName
  ports : List Port
deriving DecidableEq

/-- Resolved `Definition { services, messages, types }` (codegen `types.rs`). -/
structure Definition where
  services : List Service
  messages : List Message
  types : List TypeDecl
deriving DecidableEq

end cg

/-- The per-port body of the loop in `preprocess`: find the binding named by
the port, then the portType named by the binding, and materialize the
resolved port. `find` takes the first match; a missing reference is
`unimplemented!()`. -/
def resolve_port (definition : Definition) (port : Port) : Outcome cg.Port :=
  match definition.bindings.find? (fun binding => binding.name == port.binding) with
  | none => .panic
  | some binding =>
    match definition.port_types.find? (fun port_type => port_type.name == binding.ty) with
    | none => .panic
    | some port_type =>
      .ok { name := port.name, location := port.location, operations := port_type.operations }

/-- `preprocess` from `src/codegen/src/preprocessor.rs`. -/
def preprocess (definition : Definition) : Outcome cg.Definition :=
  Outcome.bind
    (mapOutcome
      (fun service =>
        Outcome.bind (mapOutcome (resolve_port definition) service.ports) fun ports =>
          .ok { name := service.name, ports := ports : cg.Service })
      definition.services)
    fun services =>
      .ok { services := services, messages := definition.messages, types := definition.types }

/-- **C3.** When `preprocess` succeeds, every port of every service resolves
through the first `Binding` whose name equals the port's binding reference and
the first `PortType` whose name equals that binding's type reference; the
resolved port keeps the port's name and location and carries exactly the
PortType's operations; and the definition's messages and types pass through
unchanged. -/
theorem preprocess_resolves (d : Definition) (r : cg.Definition)
    (h : preprocess d = .ok r) :
    r.messages = d.messages ∧ r.types = d.types ∧
    List.Forall₂
      (fun (s : Service) (rs : cg.Service) =>
        rs.name = s.name ∧
        List.Forall₂
          (fun (p : Port) (rp : cg.Port) =>
            ∃ b pt,
              d.bindings.find? (fun b' => b'.name == p.binding) = some b ∧
              b.name = p.binding ∧
              d.port_types.find? (fun pt' => pt'.name == b.ty) = some pt ∧
              pt.name = b.ty ∧
              rp.name = p.name ∧ rp.location = p.location ∧
              rp.operations = pt.operations)
          s.ports rs.ports)
      d.services r.services := by
  obtain ⟨services, hserv, hmk⟩ := Outcome.bind_eq_ok h
  cases hmk
  refine ⟨rfl, rfl, ?_⟩
  have hall := mapOutcome_ok_forall₂ hserv
  refine hall.imp ?_
  intro s rs hs
  obtain ⟨ports, hports, hmk2⟩ := Outcome.bind_eq_ok hs
  cases hmk2
  refine ⟨rfl, ?_⟩
  have hall2 := mapOutcome_ok_forall₂ hports
  refine hall2.imp ?_
  intro p rp hp
  unfold resolve_port at hp
  split at hp
  · exact absurd hp (by intro hc; cases hc)
  · next b hb =>
    split at hp
    · exact absurd hp (by intro hc; cases hc)
    · next pt hpt =>
      cases hp
      have hbn : b.name = p.binding := by
        have := List.find?_some hb
        simpa using this
      have hptn : pt.name = b.ty := by
        have := List.find?_some hpt
        simpa using this
      exact ⟨b, pt, hb, hbn, hpt, hptn, rfl, rfl, rfl⟩

/-- A concrete one-service, one-port definition used to witness **C3**. -/
def c3Definition : Definition :=
  { types := [⟨⟨0, "T"⟩, .Simple ⟨1, "string"⟩⟩],
    messages := [⟨⟨0, "AddSoapIn"⟩, []⟩],
    port_types := [⟨⟨0, "CalcPT"⟩, [⟨⟨0, "Add"⟩, none, none, none⟩]⟩],
    bindings := [⟨⟨0, "CalcBinding"⟩, ⟨0, "CalcPT"⟩, "http", []⟩],
    services := [⟨⟨0, "Calc"⟩, [⟨⟨0, "CalcPort"⟩, ⟨0, "CalcBinding"⟩, "http://h/c"⟩]⟩] }

/-- The resolved model `preprocess` produces for `c3Definition`. -/
def c3Resolved : cg.Definition :=
  { services := [⟨⟨0, "Calc"⟩,
      [⟨⟨0, "CalcPort"⟩, "http://h/c", [⟨⟨0, "Add"⟩, none, none, none⟩]⟩]⟩],
    messages := [⟨⟨0, "AddSoapIn"⟩, []⟩],
    types := [⟨⟨0, "T"⟩, .Simple ⟨1, "string"⟩⟩] }

/-- Witness for **C3**: the messages and types of `c3Definition` pass through
`preprocess` unchanged (and its port resolves per the theorem). -/
theorem preprocess_resolves_witness :
    c3Resolved.messages = c3Definition.messages ∧
    c3Resolved.types = c3Definition.types :=
  have h := preprocess_resolves c3Definition c3Resolved rfl
  ⟨h.1, h.2.1⟩

/-! ## The identifier disambiguator

Embedding of `State::rust_name` from `src/codegen/src/codegen.rs`. The two
`HashMap`s are modelled as association lists (`assocFind` returns the first
match; `assocUpdate` replaces the first binding or appends a fresh one, which
matches `HashMap` lookup/insert semantics for our purposes). `format_ident!`
is decimal string concatenation. -/

/-- First-match association-list lookup (models `HashMap::get`/entry lookup). -/
def assocFind {κ ν : Type} [DecidableEq κ] (k : κ) : List (κ × ν) → Option ν
  | [] => none
  | (k', v) :: rest => if k' = k then some v else assocFind k rest

/-- Insert-or-replace (models `HashMap::insert` / `Entry::insert` and the
in-place `*value += 1` update). -/
def assocUpdate {κ ν : Type} [DecidableEq κ] (k : κ) (v : ν) : List (κ × ν) → List (κ × ν)
  | [] => [(k, v)]
  | (k', v') :: rest =>
    if k' = k then (k, v) :: rest else (k', v') :: assocUpdate k v rest

theorem assocFind_update_self {κ ν : Type} [DecidableEq κ] (k : κ) (v : ν)
    (l : List (κ × ν)) : assocFind k (assocUpdate k v l) = some v := by
  induction l with
  | nil => simp [assocFind, assocUpdate]
  | cons p rest ih =>
    obtain ⟨k', v'⟩ := p
    rw [assocUpdate]
    by_cases h : k' = k
    · rw [if_pos h, assocFind, if_pos rfl]
    · rw [if_neg h, assocFind, if_neg h, ih]

theorem assocFind_update_other {κ ν : Type} [DecidableEq κ] {k k₀ : κ} (v : ν)
    (l : List (κ × ν)) (hne : k₀ ≠ k) :
    assocFind k₀ (assocUpdate k v l) = assocFind k₀ l := by
  induction l with
  | nil =>
    show (if k = k₀ then some v else assocFind k₀ ([] : List (κ × ν))) = assocFind k₀ []
    rw [if_neg (fun h => hne h.symm)]
  | cons p rest ih =>
    obtain ⟨k', v'⟩ := p
    rw [assocUpdate]
    by_cases h : k' = k
    · subst h
      rw [if_pos rfl, assocFind, assocFind, if_neg (fun h => hne h.symm),
        if_neg (fun h => hne h.symm)]
    · rw [if_neg h, assocFind, assocFind]
      by_cases h0 : k' = k₀
      · rw [if_pos h0, if_pos h0]
      · rw [if_neg h0, if_neg h0, ih]

/-- `State` from `src/codegen/src/codegen.rs` (the `added_types` set is not
needed by the claims about `rust_name` and is omitted). -/
structure State where
  rust_names : List (NamespacedName × String) := []
  name_counts : List (String × Nat) := []

/-- `State::new()`. -/
def State.new : State := {}

/-- `State::rust_name`: return the memoized identifier; otherwise assign the
bare local name on a fresh local, or `{local}{count+1}` after bumping the
per-local collision counter. -/
def State.rust_name (st : State) (name : NamespacedName) : String × State :=
  match assocFind name st.rust_names with
  | some id => (id, st)
  | none =>
    match assocFind name.name st.name_counts with
    | some count =>
      let value := count + 1
      let id := name.name ++ String.mk (formatNat value)
      (id, { rust_names := assocUpdate name id st.rust_names,
             name_counts := assocUpdate name.name value st.name_counts })
    | none =>
      let id := name.name
      (id, { rust_names := assocUpdate name id st.rust_names,
             name_counts := assocUpdate name.name 0 st.name_counts })

/-- Run a call sequence against the disambiguator, collecting the returned
identifiers. -/
def State.rust_name_run (st : State) : List NamespacedName → List String × State
  | [] => ([], st)
  | n :: rest =>
    let (id, st') := st.rust_name n
    let (ids, st'') := st'.rust_name_run rest
    (id :: ids, st'')

/-- The identifier the disambiguator assigns to the `k`-th distinct name
(0-based) sharing one local name. -/
def mkId (L : String) (k : Nat) : String :=
  if k = 0 then L else L ++ String.mk (formatNat k)

/-- Rank of (the first occurrence of) `n` among the entries of `names` that
share `n`'s local name. -/
def localRank : List NamespacedName → NamespacedName → Nat
  | [], _ => 0
  | m :: rest, n =>
    if m = n then 0
    else (if m.name = n.name then 1 else 0) + localRank rest n

/-- Number of entries of `names` with local name `L`. -/
def countL (names : List NamespacedName) (L : String) : Nat :=
  (names.filter (fun m => m.name = L)).length

/-- Append `n` to `names` unless already present (first-seen order dedup). -/
def addDistinct (names : List NamespacedName) (n : NamespacedName) : List NamespacedName :=
  if n ∈ names then names else names ++ [n]

/-- The distinct names of `seq`, in first-seen order, appended to `names`. -/
def distinctsAux (names : List NamespacedName) : List NamespacedName → List NamespacedName
  | [] => names
  | n :: rest => distinctsAux (addDistinct names n) rest

/-- The distinct names of a call sequence, in first-seen order. -/
def distincts (seq : List NamespacedName) : List NamespacedName := distinctsAux [] seq

theorem localRank_append_mem {names : List NamespacedName} {m : NamespacedName}
    (hm : m ∈ names) (n : NamespacedName) :
    localRank (names ++ [n]) m = localRank names m := by
  induction names with
  | nil => cases hm
  | cons x rest ih =>
    rw [List.cons_append, localRank, localRank]
    by_cases hx : x = m
    · rw [if_pos hx, if_pos hx]
    · rw [if_neg hx, if_neg hx, ih (by
        cases List.mem_cons.mp hm with
        | inl h => exact absurd h.symm hx
        | inr h => exact h)]

theorem localRank_append_self {names : List NamespacedName} {n : NamespacedName}
    (hn : n ∉ names) :
    localRank (names ++ [n]) n = countL names n.name := by
  induction names with
  | nil => simp [localRank, countL]
  | cons x rest ih =>
    have hxn : x ≠ n := fun h => hn (by rw [h]; exact List.mem_cons_self _ _)
    have hrest : n ∉ rest := fun h => hn (List.mem_cons_of_mem _ h)
    rw [List.cons_append, localRank, if_neg hxn, ih hrest]
    have hcount : countL (x :: rest) n.name
        = (if x.name = n.name then 1 else 0) + countL rest n.name := by
      rw [countL, countL, List.filter_cons]
      by_cases hx : x.name = n.name
      · simp [hx]; omega
      · simp [hx]
    rw [hcount]

theorem countL_append (names : List NamespacedName) (n : NamespacedName) (L : String) :
    countL (names ++ [n]) L = countL names L + (if n.name = L then 1 else 0) := by
  rw [countL, countL, List.filter_append]
  by_cases h : n.name = L
  · simp [h]
  · simp [h]

/-- The state invariant of the disambiguator relative to the list of distinct
names requested so far (in first-request order): `rust_names` stores
`mkId local rank` for every requested name, and `name_counts` stores one less
than the number of distinct requested names per local name. -/
def DisInv (names : List NamespacedName) (st : State) : Prop :=
  (∀ n : NamespacedName, assocFind n st.rust_names =
      if n ∈ names then some (mkId n.name (localRank names n)) else none) ∧
  (∀ L : String, assocFind L st.name_counts =
      if countL names L = 0 then none else some (countL names L - 1))

theorem disInv_new : DisInv [] State.new := by
  constructor
  · intro n; simp [State.new, assocFind]
  · intro L; simp [State.new, assocFind, countL]

theorem countL_eq_zero_of_not_mem {names : List NamespacedName} {n : NamespacedName}
    (h : ∀ m, m ∈ names → m.name ≠ n.name) : countL names n.name = 0 := by
  rw [countL, List.length_eq_zero, List.filter_eq_nil_iff]
  intro m hm
  simpa using h m hm

theorem rust_name_step {names : List NamespacedName} {st : State}
    (h : DisInv names st) (n : NamespacedName) :
    (st.rust_name n).1 = mkId n.name (localRank (addDistinct names n) n) ∧
    DisInv (addDistinct names n) (st.rust_name n).2 := by
  obtain ⟨h1, h2⟩ := h
  by_cases hmem : n ∈ names
  · have hlook := h1 n
    rw [if_pos hmem] at hlook
    rw [addDistinct, if_pos hmem]
    simp only [State.rust_name, hlook]
    refine ⟨?_, h1, h2⟩
    trivial
  · have hlook := h1 n
    rw [if_neg hmem] at hlook
    rw [addDistinct, if_neg hmem]
    have hrank : localRank (names ++ [n]) n = countL names n.name :=
      localRank_append_self hmem
    have hmemApp : ∀ m : NamespacedName, m ∈ names ++ [n] ↔ m ∈ names ∨ m = n := by
      intro m; simp
    by_cases hc : countL names n.name = 0
    · have hcnt := h2 n.name
      rw [if_pos hc] at hcnt
      simp only [State.rust_name, hlook, hcnt]
      refine ⟨?_, ?_, ?_⟩
      · rw [mkId, hrank, hc, if_pos rfl]
      · intro m
        by_cases hm : m = n
        · subst hm
          rw [assocFind_update_self, if_pos ((hmemApp m).mpr (Or.inr rfl))]
          rw [mkId, hrank, hc, if_pos rfl]
        · rw [assocFind_update_other _ _ hm, h1 m]
          by_cases hmn : m ∈ names
          · rw [if_pos hmn, if_pos ((hmemApp m).mpr (Or.inl hmn)),
              localRank_append_mem hmn]
          · rw [if_neg hmn, if_neg (fun hcon => by
              cases (hmemApp m).mp hcon with
              | inl hh => exact hmn hh
              | inr hh => exact hm hh)]
      · intro L
        by_cases hL : L = n.name
        · subst hL
          rw [assocFind_update_self, countL_append, if_pos rfl, hc]
          simp
        · rw [assocFind_update_other _ _ hL, h2 L, countL_append,
            if_neg (show ¬ n.name = L from fun hcon => hL hcon.symm)]
          simp
    · have hcnt := h2 n.name
      rw [if_neg hc] at hcnt
      simp only [State.rust_name, hlook, hcnt]
      have hvalue : countL names n.name - 1 + 1 = countL names n.name := by omega
      refine ⟨?_, ?_, ?_⟩
      · rw [mkId, hrank, if_neg hc, hvalue]
      · intro m
        by_cases hm : m = n
        · subst hm
          rw [assocFind_update_self, if_pos ((hmemApp m).mpr (Or.inr rfl))]
          rw [mkId, hrank, if_neg hc, hvalue]
        · rw [assocFind_update_other _ _ hm, h1 m]
          by_cases hmn : m ∈ names
          · rw [if_pos hmn, if_pos ((hmemApp m).mpr (Or.inl hmn)),
              localRank_append_mem hmn]
          · rw [if_neg hmn, if_neg (fun hcon => by
              cases (hmemApp m).mp hcon with
              | inl hh => exact hmn hh
              | inr hh => exact hm hh)]
      · intro L
        by_cases hL : L = n.name
        · subst hL
          rw [assocFind_update_self, countL_append, if_pos rfl,
            if_neg (by omega), hvalue]
          congr 1
        · rw [assocFind_update_other _ _ hL, h2 L, countL_append,
            if_neg (show ¬ n.name = L from fun hcon => hL hcon.symm)]
          simp

theorem rust_name_run_inv {names : List NamespacedName} {st : State}
    (h : DisInv names st) (seq : List NamespacedName) :
    DisInv (distinctsAux names seq) (st.rust_name_run seq).2 := by
  induction seq generalizing names st with
  | nil => exact h
  | cons n rest ih =>
    have hstep := rust_name_step h n
    rw [State.rust_name_run, distinctsAux]
    exact ih hstep.2

theorem mem_distinctsAux_of_base {names : List NamespacedName} {m : NamespacedName}
    (hm : m ∈ names) (seq : List NamespacedName) : m ∈ distinctsAux names seq := by
  induction seq generalizing names with
  | nil => exact hm
  | cons n rest ih =>
    rw [distinctsAux]
    refine ih ?_
    rw [addDistinct]
    split
    · exact hm
    · exact List.mem_append_left _ hm

theorem mem_distinctsAux_of_seq {seq : List NamespacedName} {m : NamespacedName}
    (hm : m ∈ seq) (names : List NamespacedName) : m ∈ distinctsAux names seq := by
  induction seq generalizing names with
  | nil => cases hm
  | cons n rest ih =>
    rw [distinctsAux]
    cases List.mem_cons.mp hm with
    | inl h =>
      subst h
      refine mem_distinctsAux_of_base ?_ rest
      rw [addDistinct]
      split
      · assumption
      · exact List.mem_append_right _ (List.mem_singleton.mpr rfl)
    | inr h => exact ih h _

theorem mem_of_mem_distinctsAux {seq names : List NamespacedName} {m : NamespacedName}
    (hm : m ∈ distinctsAux names seq) : m ∈ names ∨ m ∈ seq := by
  induction seq generalizing names with
  | nil => exact Or.inl hm
  | cons n rest ih =>
    rw [distinctsAux] at hm
    cases ih hm with
    | inl h =>
      rw [addDistinct] at h
      split at h
      · exact Or.inl h
      · cases List.mem_append.mp h with
        | inl hh => exact Or.inl hh
        | inr hh => exact Or.inr (List.mem_cons.mpr (Or.inl (List.mem_singleton.mp hh)))
    | inr h => exact Or.inr (List.mem_cons_of_mem _ h)

theorem nodup_distinctsAux {names : List NamespacedName} (hn : names.Nodup)
    (seq : List NamespacedName) : (distinctsAux names seq).Nodup := by
  induction seq generalizing names with
  | nil => exact hn
  | cons n rest ih =>
    rw [distinctsAux]
    refine ih ?_
    rw [addDistinct]
    split
    · exact hn
    · next hmem =>
        exact List.Nodup.append hn (List.nodup_singleton n) (List.disjoint_singleton.mpr hmem)

theorem mem_addDistinct_self (names : List NamespacedName) (n : NamespacedName) :
    n ∈ addDistinct names n := by
  rw [addDistinct]
  split
  · assumption
  · exact List.mem_append_right _ (List.mem_singleton.mpr rfl)

theorem localRank_addDistinct_of_mem {names : List NamespacedName} {m : NamespacedName}
    (hm : m ∈ names) (n : NamespacedName) :
    localRank (addDistinct names n) m = localRank names m := by
  rw [addDistinct]
  split
  · rfl
  · exact localRank_append_mem hm n

theorem localRank_distinctsAux_of_mem {names : List NamespacedName} {m : NamespacedName}
    (hm : m ∈ names) (seq : List NamespacedName) :
    localRank (distinctsAux names seq) m = localRank names m := by
  induction seq generalizing names with
  | nil => rfl
  | cons n rest ih =>
    rw [distinctsAux]
    rw [ih (by
      rw [addDistinct]
      split
      · exact hm
      · exact List.mem_append_left _ hm)]
    exact localRank_addDistinct_of_mem hm n

theorem string_append_data (a b : String) : (a ++ b).data = a.data ++ b.data := rfl

theorem mkId_inj (L : String) {k₁ k₂ : Nat} (h : mkId L k₁ = mkId L k₂) : k₁ = k₂ := by
  unfold mkId at h
  have hlen : ∀ k : Nat, k ≠ 0 → 0 < (formatNat k).length := fun k _ =>
    List.length_pos.mpr (formatNat_ne_nil k)
  by_cases h1 : k₁ = 0 <;> by_cases h2 : k₂ = 0
  · omega
  · rw [if_pos h1, if_neg h2] at h
    have := congrArg (fun s : String => s.data.length) h
    simp only [string_append_data, List.length_append] at this
    have := hlen k₂ h2
    simp only [String.data] at *
    omega
  · rw [if_neg h1, if_pos h2] at h
    have := congrArg (fun s : String => s.data.length) h
    simp only [string_append_data, List.length_append] at this
    have := hlen k₁ h1
    simp only [String.data] at *
    omega
  · rw [if_neg h1, if_neg h2] at h
    have hd := congrArg String.data h
    simp only [string_append_data] at hd
    have := List.append_cancel_left hd
    exact formatNat_injective (by
      have : ({ data := formatNat k₁ } : String).data = ({ data := formatNat k₂ } : String).data := by
        rw [show ({ data := formatNat k₁ } : String).data = formatNat k₁ from rfl,
          show ({ data := formatNat k₂ } : String).data = formatNat k₂ from rfl]
        simpa using this
      simpa using this)

theorem localRank_inj_of_same_local {D : List NamespacedName} (hD : D.Nodup)
    {m₁ m₂ : NamespacedName} (h1 : m₁ ∈ D) (h2 : m₂ ∈ D) (hne : m₁ ≠ m₂)
    (hloc : m₁.name = m₂.name) : localRank D m₁ ≠ localRank D m₂ := by
  induction D with
  | nil => cases h1
  | cons x rest ih =>
    obtain ⟨hx, hr⟩ := List.nodup_cons.mp hD
    rw [localRank, localRank]
    by_cases e1 : x = m₁
    · have e2 : ¬ x = m₂ := fun he => hne (e1 ▸ he ▸ rfl)
      rw [if_pos e1, if_neg e2, e1, hloc, if_pos rfl]
      omega
    · by_cases e2 : x = m₂
      · rw [if_neg e1, if_pos e2, e2, ← hloc, if_pos rfl]
        omega
      · rw [if_neg e1, if_neg e2, ← hloc]
        have hm1 : m₁ ∈ rest := by
          cases List.mem_cons.mp h1 with
          | inl hh => exact absurd hh.symm e1
          | inr hh => exact hh
        have hm2 : m₂ ∈ rest := by
          cases List.mem_cons.mp h2 with
          | inl hh => exact absurd hh.symm e2
          | inr hh => exact hh
        have := ih hr hm1 hm2
        omega

/-! ### Determinism of `rust_name` across a call sequence -/

theorem rust_name_preserves_entry {st : State} {m : NamespacedName} {id : String}
    (h : assocFind m st.rust_names = some id) (k : NamespacedName) :
    assocFind m ((st.rust_name k).2).rust_names = some id := by
  cases hk : assocFind k st.rust_names with
  | some id' => simp only [State.rust_name, hk]; exact h
  | none =>
    have hkm : ¬ m = k := fun he => by rw [← he, h] at hk; cases hk
    cases hc : assocFind k.name st.name_counts with
    | some c =>
      simp only [State.rust_name, hk, hc]
      rw [assocFind_update_other _ _ hkm]
      exact h
    | none =>
      simp only [State.rust_name, hk, hc]
      rw [assocFind_update_other _ _ hkm]
      exact h

theorem rust_name_records (st : State) (k : NamespacedName) :
    assocFind k ((st.rust_name k).2).rust_names = some ((st.rust_name k).1) := by
  cases hk : assocFind k st.rust_names with
  | some id => simp only [State.rust_name, hk]
  | none =>
    cases hc : assocFind k.name st.name_counts with
    | some c =>
      simp only [State.rust_name, hk, hc]
      exact assocFind_update_self _ _ _
    | none =>
      simp only [State.rust_name, hk, hc]
      exact assocFind_update_self _ _ _

theorem rust_name_of_stored {st : State} {k : NamespacedName} {id : String}
    (h : assocFind k st.rust_names = some id) : st.rust_name k = (id, st) := by
  simp only [State.rust_name, h]

theorem run_out_of_stored :
    ∀ (seq : List NamespacedName) (st : State) (j : Nat) (m : NamespacedName) (id : String),
      assocFind m st.rust_names = some id → seq[j]? = some m →
      (st.rust_name_run seq).1[j]? = some id := by
  intro seq
  induction seq with
  | nil =>
    intro st j m id _ hj
    simp at hj
  | cons n rest ih =>
    intro st j m id hst hj
    show ((st.rust_name n).1 :: ((st.rust_name n).2.rust_name_run rest).1)[j]? = some id
    cases j with
    | zero =>
      have hm : n = m := by simpa using hj
      subst hm
      rw [rust_name_of_stored hst, List.getElem?_cons_zero]
    | succ j' =>
      rw [List.getElem?_cons_succ]
      exact ih _ j' m id (rust_name_preserves_entry hst n) (by simpa using hj)

theorem run_deterministic :
    ∀ (seq : List NamespacedName) (st : State) (i j : Nat) (m : NamespacedName),
      i ≤ j → seq[i]? = some m → seq[j]? = some m →
      (st.rust_name_run seq).1[i]? = (st.rust_name_run seq).1[j]? := by
  intro seq
  induction seq with
  | nil =>
    intro st i j m _ hi _
    simp at hi
  | cons n rest ih =>
    intro st i j m hij hi hj
    show ((st.rust_name n).1 :: ((st.rust_name n).2.rust_name_run rest).1)[i]?
      = ((st.rust_name n).1 :: ((st.rust_name n).2.rust_name_run rest).1)[j]?
    cases i with
    | zero =>
      have hm : n = m := by simpa using hi
      subst hm
      cases j with
      | zero => rfl
      | succ j' =>
        rw [List.getElem?_cons_zero, List.getElem?_cons_succ]
        exact (run_out_of_stored rest _ j' n _ (rust_name_records st n)
          (by simpa using hj)).symm
    | succ i' =>
      cases j with
      | zero => omega
      | succ j' =>
        rw [List.getElem?_cons_succ, List.getElem?_cons_succ]
        exact ih _ i' j' m (by omega) (by simpa using hi) (by simpa using hj)

/-- Output characterization: against a state satisfying the invariant, the
answer at position `i` is `mkId` of the local name and the final rank of the
requested name among the distinct requested names sharing its local name. -/
theorem run_out_char :
    ∀ (seq : List NamespacedName) (names : List NamespacedName) (st : State),
      DisInv names st → ∀ (i : Nat) (m : NamespacedName), seq[i]? = some m →
      (st.rust_name_run seq).1[i]?
        = some (mkId m.name (localRank (distinctsAux names seq) m)) := by
  intro seq
  induction seq with
  | nil =>
    intro names st _ i m hi
    simp at hi
  | cons n rest ih =>
    intro names st hinv i m hi
    have hstep := rust_name_step hinv n
    show ((st.rust_name n).1 :: ((st.rust_name n).2.rust_name_run rest).1)[i]?
      = some (mkId m.name (localRank (distinctsAux (addDistinct names n) rest) m))
    cases i with
    | zero =>
      have hm : n = m := by simpa using hi
      subst hm
      rw [List.getElem?_cons_zero, hstep.1,
        localRank_distinctsAux_of_mem (mem_addDistinct_self names n) rest]
    | succ i' =>
      rw [List.getElem?_cons_succ]
      exact ih _ _ hstep.2 i' m (by simpa using hi)

/-- **C5.** Behaviour of the identifier disambiguator over call sequences from
the fresh state: (i) the first request for a namespaced name whose local name
has not been seen returns the bare local name; (ii) any later request for an
already-requested namespaced name returns the identifier originally assigned;
(iii) a request for a new namespaced name sharing an already-seen local name
returns `{local}{counter}` where the counter equals the number of distinct
prior names with that local name (so the first collision yields suffix `1`,
the next `2`, and so on). -/
theorem rust_name_call_sequence_spec (pre : List NamespacedName) (n : NamespacedName) :
    ((∀ m, m ∈ pre → m.name ≠ n.name) →
      (((State.new.rust_name_run pre).2).rust_name n).1 = n.name) ∧
    (∀ (i j : Nat) (m : NamespacedName), i ≤ j → pre[i]? = some m → pre[j]? = some m →
      (State.new.rust_name_run pre).1[i]? = (State.new.rust_name_run pre).1[j]?) ∧
    (n ∉ pre → (∃ m, m ∈ pre ∧ m.name = n.name) →
      (((State.new.rust_name_run pre).2).rust_name n).1
          = n.name ++ String.mk (formatNat (countL (distincts pre) n.name)) ∧
      1 ≤ countL (distincts pre) n.name) := by
  have hinv : DisInv (distincts pre) (State.new.rust_name_run pre).2 :=
    rust_name_run_inv disInv_new pre
  refine ⟨?_, ?_, ?_⟩
  · intro hfresh
    have hnot : n ∉ distincts pre := fun hmem => by
      cases mem_of_mem_distinctsAux hmem with
      | inl h => cases h
      | inr h => exact hfresh n h rfl
    have hstep := rust_name_step hinv n
    rw [hstep.1, addDistinct, if_neg hnot, localRank_append_self hnot]
    have hc0 : countL (distincts pre) n.name = 0 := by
      refine countL_eq_zero_of_not_mem (fun m hm => ?_)
      cases mem_of_mem_distinctsAux hm with
      | inl h => cases h
      | inr h => exact hfresh m h
    rw [hc0, mkId, if_pos rfl]
  · intro i j m hij hi hj
    exact run_deterministic pre State.new i j m hij hi hj
  · intro hnp hex
    obtain ⟨m, hm, hloc⟩ := hex
    have hnot : n ∉ distincts pre := fun hmem => by
      cases mem_of_mem_distinctsAux hmem with
      | inl h => cases h
      | inr h => exact hnp h
    have hstep := rust_name_step hinv n
    have hge : 1 ≤ countL (distincts pre) n.name := by
      rw [countL]
      have hmd : m ∈ (distincts pre).filter (fun x => x.name = n.name) :=
        List.mem_filter.mpr ⟨mem_distinctsAux_of_seq hm [], by simp [hloc]⟩
      have := List.length_pos.mpr (List.ne_nil_of_mem hmd)
      omega
    constructor
    · rw [hstep.1, addDistinct, if_neg hnot, localRank_append_self hnot, mkId,
        if_neg (by omega)]
    · exact hge

/-- Witness for **C5** at a concrete call sequence: after requesting
`(ns0, Name)`, the colliding request `(ns1, Name)` yields the suffixed
identifier. -/
theorem rust_name_call_sequence_spec_witness :
    (((State.new.rust_name_run [⟨0, "Name"⟩]).2).rust_name ⟨1, "Name"⟩).1
        = "Name" ++ String.mk (formatNat (countL (distincts [⟨0, "Name"⟩]) "Name")) ∧
    1 ≤ countL (distincts [⟨0, "Name"⟩]) "Name" :=
  (rust_name_call_sequence_spec [⟨0, "Name"⟩] ⟨1, "Name"⟩).2.2 (by decide)
    ⟨⟨0, "Name"⟩, by decide, rfl⟩

/-- **C6 counterexample.** The disambiguator is not injective across local
names: in the call sequence `(ns0, "A")`, `(ns0, "A1")`, `(ns1, "A")`, the
distinct namespaced names `(ns0, "A1")` and `(ns1, "A")` both receive the
identifier `"A1"`. -/
theorem rust_name_not_injective :
    (State.new.rust_name_run [⟨0, "A"⟩, ⟨0, "A1"⟩, ⟨1, "A"⟩]).1 = ["A", "A1", "A1"] ∧
    (⟨0, "A1"⟩ : NamespacedName) ≠ ⟨1, "A"⟩ := by
  constructor
  · rfl
  · decide

/-- **C6** (amended). The disambiguator is deterministic (two requests for the
same namespaced name in one call sequence return the same identifier), and it
is injective among names sharing one local name (distinct namespaced names
with equal local names receive distinct identifiers); full injectivity across
different local names fails (see the counterexample: a bare local name can
equal another local name's suffixed identifier). -/
theorem rust_name_det_and_inj_within_local (seq : List NamespacedName) :
    (∀ (i j : Nat) (m : NamespacedName), i ≤ j → seq[i]? = some m → seq[j]? = some m →
      (State.new.rust_name_run seq).1[i]? = (State.new.rust_name_run seq).1[j]?) ∧
    (∀ (i j : Nat) (m₁ m₂ : NamespacedName), seq[i]? = some m₁ → seq[j]? = some m₂ → m₁ ≠ m₂ →
      m₁.name = m₂.name →
      (State.new.rust_name_run seq).1[i]? ≠ (State.new.rust_name_run seq).1[j]?) := by
  constructor
  · intro i j m hij hi hj
    exact run_deterministic seq State.new i j m hij hi hj
  · intro i j m₁ m₂ hi hj hne hloc
    have hci := run_out_char seq [] State.new disInv_new i m₁ hi
    have hcj := run_out_char seq [] State.new disInv_new j m₂ hj
    rw [hci, hcj]
    intro hcon
    have heq := (Option.some.injEq _ _).mp hcon
    rw [hloc] at heq
    have hrank := mkId_inj _ heq
    have hD : (distincts seq).Nodup := nodup_distinctsAux List.nodup_nil seq
    have h1 : m₁ ∈ distincts seq :=
      mem_distinctsAux_of_seq (List.getElem?_mem hi) []
    have h2 : m₂ ∈ distincts seq :=
      mem_distinctsAux_of_seq (List.getElem?_mem hj) []
    exact localRank_inj_of_same_local hD h1 h2 hne hloc hrank

/-- Witness for **C6**: in the sequence `(ns0, "A")`, `(ns1, "A")`, the two
distinct names with local name `"A"` receive distinct identifiers. -/
theorem rust_name_det_and_inj_within_local_witness :
    (State.new.rust_name_run [⟨0, "A"⟩, ⟨1, "A"⟩]).1[0]?
      ≠ (State.new.rust_name_run [⟨0, "A"⟩, ⟨1, "A"⟩]).1[1]? :=
  (rust_name_det_and_inj_within_local [⟨0, "A"⟩, ⟨1, "A"⟩]).2 0 1 ⟨0, "A"⟩ ⟨1, "A"⟩
    (by decide) (by decide) (by decide) rfl

/-! ## The WSDL/XSD parser — state machine

Embedding of `src/wsdl/src/parser.rs`. XML events arrive pre-decoded (the
`quick_xml` reader and byte decoding are external): a start tag carries its
raw (possibly prefixed) name, its attributes as string pairs, and the
namespace slice that `read_namespaced_event` resolves for the element. The
parser stack (`Vec<ParseState>`, top at the `Vec`'s end) is a Lean list with
the top at the head. `unimplemented!()` is `Outcome.panic`; `Url::join` and
document fetching are external parameters; the recursive `parse_url` into
imported documents is driven by explicit fuel (`Outcome.nofuel` when
exhausted, corresponding to no behaviour of the Rust code, which would simply
keep recursing). -/

/-- A decoded XML start tag: raw name, attributes, and the element's resolved
namespace (from `read_namespaced_event`). -/
structure StartTag where
  name : String
  attrs : List (String × String)
  nsResolved : Option String := none
deriving DecidableEq

/-- The significant XML events of `parse_xml`'s loop: declarations are
skipped, `Start`/`End`/`Empty`/`Text` are handled, everything else is logged
and skipped; end of the list is `Eof`. -/
inductive XEvent where
  | decl
  | start (t : StartTag)
  | empty (t : StartTag)
  | endTag
  | text (s : String)
  | other
deriving DecidableEq

/-- `split_namespaced_name`'s helper: the characters before the first `':'`,
and the remainder after it when present. -/
def spanUntilColon : List Char → List Char × Option (List Char)
  | [] => ([], none)
  | c :: cs =>
    if c = ':' then ([], some cs)
    else
      let (a, r) := spanUntilColon cs
      (c :: a, r)

/-- `split_namespaced_name`: Rust's `split(':')` taken twice — the prefix
before the first colon (when any) and the segment between the first and
second colons. -/
def split_namespaced_name (s : String) : Option String × String :=
  match spanUntilColon s.data with
  | (_, none) => (none, s)
  | (first, some rest) => (some ⟨first⟩, ⟨(spanUntilColon rest).1⟩)

/-- `get_attributes` restricted to one requested name: the Rust loop writes
each matching attribute into the slot, so the last occurrence wins. -/
def get_attribute (attrs : List (String × String)) (name : String) : Option String :=
  attrs.foldl (fun acc kv => if kv.1 = name then some kv.2 else acc) none

/-- `CurrentNamespaces { target: Vec<String>, namespaces: HashMap<Option<String>, String> }`
(target stack top at the head). -/
structure CurrentNamespaces where
  target : List String := []
  namespaces : List (Option String × String) := []
deriving DecidableEq

/-- The mutable parser (`Parser` in the source, minus the reader plumbing). -/
structure ParserSt where
  root : String
  definition : Definition := {}
  namespaces : Namespaces := []
  current_namespaces : CurrentNamespaces := {}
deriving DecidableEq

/-- `Parser::push_target_namespace`. -/
def ParserSt.push_target_namespace (st : ParserSt) (ns : String) : ParserSt :=
  { st with current_namespaces :=
      { st.current_namespaces with target := ns :: st.current_namespaces.target } }

/-- `Parser::pop_target_namespace`. -/
def ParserSt.pop_target_namespace (st : ParserSt) : ParserSt :=
  { st with current_namespaces :=
      { st.current_namespaces with target := st.current_namespaces.target.tail } }

/-- `Parser::add_namespace_prefix`. -/
def ParserSt.add_namespace_prefix (st : ParserSt) (p : Option String) (ns : String) :
    ParserSt :=
  { st with current_namespaces :=
      { st.current_namespaces with
        namespaces := assocUpdate p ns st.current_namespaces.namespaces } }

/-- `CurrentNamespaces::target_namespaced` threaded through the parser state:
intern the innermost target namespace; no target namespace in scope is
`unimplemented!()`. -/
def ParserSt.target_namespaced (st : ParserSt) (name : String) :
    Outcome (NamespacedName × ParserSt) :=
  match st.current_namespaces.target.head? with
  | some target =>
    let r := NamespacedName.new st.namespaces target name
    .ok (r.1, { st with namespaces := r.2 })
  | none => .panic

/-- `CurrentNamespaces::resolved_prefix`: an unknown prefix is
`unimplemented!()`. -/
def ParserSt.resolved_prefix (st : ParserSt) (p : Option String) (name : String) :
    Outcome (NamespacedName × ParserSt) :=
  match assocFind p st.current_namespaces.namespaces with
  | some value =>
    let r := NamespacedName.new st.namespaces value name
    .ok (r.1, { st with namespaces := r.2 })
  | none => .panic

/-- `Parser::resolve_namespace`: `tns:` resolves to the innermost target
namespace, anything else through the prefix map. -/
def ParserSt.resolve_namespace (st : ParserSt) (prefixed : String) :
    Outcome (NamespacedName × ParserSt) :=
  let pl := split_namespaced_name prefixed
  match pl.1 with
  | some p => if p = "tns" then st.target_namespaced pl.2 else st.resolved_prefix (some p) pl.2
  | none => st.resolved_prefix none pl.2

/-- The `xmlns:*` scan at the top of `handle_start`. -/
def scan_xmlns (st : ParserSt) (attrs : List (String × String)) : ParserSt :=
  attrs.foldl
    (fun st kv =>
      let pl := split_namespaced_name kv.1
      match pl.1 with
      | some p => if p = "xmlns" then st.add_namespace_prefix (some pl.2) kv.2 else st
      | none => st)
    st

/-- The `ParseState` stack-frame variants of `src/wsdl/src/parser.rs`. -/
inductive ParseState where
  | Definitions
  | Types
  | Schema
  | Element (name : String) (kind : Option TypeKind)
  | ComplexType (name : Option String) (kind : Option TypeKind)
  | ComplexContent (fields : List Field)
  | ComplexExtension (fields : List Field)
  | SimpleContent (ty : Option NamespacedName)
  | SimpleExtension (ty : NamespacedName)
  | Sequence (fields : List Field)
  | SequenceElement (name : String) (ty : Option NamespacedName) (inner : Option TypeKind)
  | SimpleType (name : String) (ty : Option NamespacedName)
  | Restriction (ty : NamespacedName)
  | Message (name : String) (parts : List Field)
  | Part (name : String) (element : NamespacedName)
  | PortType (name : String) (operations : List Operation)
  | Operation (name : String) (documentation : Option String)
      (input : Option NamespacedName) (output : Option NamespacedName)
  | Documentation (text : Option String)
  | Input (message : NamespacedName)
  | Output (message : NamespacedName)
  | Binding (name : String) (ty : NamespacedName) (transport : Option String)
      (operations : List BindingOperation)
  | Transport (transport : String)
  | BindingOperation (name : String) (action : Option String) (style : Option String)
      (input : Option String) (output : Option String)
  | OperationAction (action : String) (style : String)
  | BindingInput (body : Option String)
  | BindingOutput (body : Option String)
  | BindingBody (body : String)
  | Service (name : String) (ports : List Port)
  | Port (name : String) (binding : NamespacedName) (address : Option String)
  | Address (location : String)
  | Import (ns : Option String)
  | Other (name : String)
deriving DecidableEq

/-- A mandatory attribute: absence is `unimplemented!()`. -/
def requireAttr (attrs : List (String × String)) (name : String) : Outcome String :=
  match get_attribute attrs name with
  | some v => .ok v
  | none => .panic

/-- Append a finished top-level `Type` to the definition. -/
def pushType (st : ParserSt) (name : NamespacedName) (kind : TypeKind) : ParserSt :=
  { st with definition :=
      { st.definition with types := st.definition.types ++ [⟨name, kind⟩] } }

/-- The `schema` start handling shared by the root and `Types` contexts:
require `targetNamespace`, push it, and record the element's resolved
namespace under the tag's prefix (panicking when the reader resolved none). -/
def schemaStart (st : ParserSt) (p : Option String) (t : StartTag) :
    Outcome (ParserSt × ParseState) :=
  Outcome.bind (requireAttr t.attrs "targetNamespace") fun ns =>
    match t.nsResolved with
    | some nsb => .ok (ParserSt.add_namespace_prefix (st.push_target_namespace ns) p nsb, .Schema)
    | none => .panic

/-- The `import`/`include` start handling: require the location attribute,
parse the referenced document inline (via the supplied import handler), then
push an `Import` placeholder frame. -/
def schemaImport (parseImport : String → ParserSt → Outcome ParserSt)
    (st : ParserSt) (t : StartTag) (locAttr : String) :
    Outcome (ParserSt × ParseState) :=
  Outcome.bind (requireAttr t.attrs locAttr) fun location =>
    Outcome.bind (parseImport location st) fun st' =>
      .ok (st', .Import (get_attribute t.attrs "namespace"))

/-- `Parser::handle_start`, as a function of the popped top frame. The Rust
code pops the top frame, matches on it without moving it, then re-extends it
followed by the new frame; this function returns the parser state and the new
frame, and `handleStart` below pushes the frame onto the untouched stack.
`parseImport` stands for the recursive `self.parse_url(self.root.join(..)?)?`
call on imports. -/
def handleStartCore (parseImport : String → ParserSt → Outcome ParserSt)
    (st0 : ParserSt) (state : Option ParseState) (t : StartTag) :
    Outcome (ParserSt × ParseState) :=
  let pl := split_namespaced_name t.name
  let loc := pl.2
  let st := scan_xmlns st0 t.attrs
  match state with
  | none =>
    match loc with
    | "definitions" =>
      Outcome.bind (requireAttr t.attrs "targetNamespace") fun ns =>
        .ok (st.push_target_namespace ns, .Definitions)
    | "schema" => schemaStart st pl.1 t
    | _ => .ok (st, .Other loc)
  | some .Definitions =>
    match loc with
    | "import" => schemaImport parseImport st t "location"
    | "types" => .ok (st, .Types)
    | "message" =>
      Outcome.bind (requireAttr t.attrs "name") fun name =>
        .ok (st, .Message name [])
    | "portType" =>
      Outcome.bind (requireAttr t.attrs "name") fun name =>
        .ok (st, .PortType name [])
    | "binding" =>
      Outcome.bind (requireAttr t.attrs "name") fun name =>
        Outcome.bind (requireAttr t.attrs "type") fun tyStr =>
          Outcome.bind (st.resolve_namespace tyStr) fun r =>
            .ok (r.2, .Binding name r.1 none [])
    | "service" =>
      Outcome.bind (requireAttr t.attrs "name") fun name =>
        .ok (st, .Service name [])
    | _ => .ok (st, .Other loc)
  | some .Types =>
    match loc with
    | "schema" => schemaStart st pl.1 t
    | "import" => schemaImport parseImport st t "schemaLocation"
    | _ => .ok (st, .Other loc)
  | some .Schema =>
    match loc with
    | "element" =>
      Outcome.bind (requireAttr t.attrs "name") fun name =>
        match get_attribute t.attrs "type" with
        | some tyStr =>
          Outcome.bind (st.resolve_namespace tyStr) fun r =>
            .ok (r.2, .Element name (some (.Alias r.1)))
        | none => .ok (st, .Element name none)
    | "complexType" =>
      Outcome.bind (requireAttr t.attrs "name") fun name =>
        .ok (st, .ComplexType (some name) none)
    | "simpleType" =>
      Outcome.bind (requireAttr t.attrs "name") fun name =>
        .ok (st, .SimpleType name none)
    | "include" => schemaImport parseImport st t "schemaLocation"
    | "import" => schemaImport parseImport st t "schemaLocation"
    | _ => .ok (st, .Other loc)
  | some (.Element _ _) =>
    match loc with
    | "complexType" => .ok (st, .ComplexType none none)
    | _ => .ok (st, .Other loc)
  | some (.ComplexType _ _) =>
    match loc with
    | "sequence" => .ok (st, .Sequence [])
    | "simpleContent" => .ok (st, .SimpleContent none)
    | "complexContent" => .ok (st, .ComplexContent [])
    | _ => .ok (st, .Other loc)
  | some (.ComplexContent _) =>
    match loc with
    | "extension" =>
      Outcome.bind (requireAttr t.attrs "base") fun baseStr =>
        Outcome.bind (st.resolve_namespace baseStr) fun r =>
          Outcome.bind (r.2.resolve_namespace "tns:base") fun r2 =>
            .ok (r2.2, .ComplexExtension [Field.mk r2.1 (.Ty r.1)])
    | _ => .ok (st, .Other loc)
  | some (.ComplexExtension _) =>
    match loc with
    | "sequence" => .ok (st, .Sequence [])
    | _ => .ok (st, .Other loc)
  | some (.SimpleExtension _) => .ok (st, .Other loc)
  | some (.SimpleContent _) =>
    match loc with
    | "extension" =>
      Outcome.bind (requireAttr t.attrs "base") fun baseStr =>
        Outcome.bind (st.resolve_namespace baseStr) fun r =>
          .ok (r.2, .SimpleExtension r.1)
    | _ => .ok (st, .Other loc)
  | some (.SimpleType _ _) =>
    match loc with
    | "restriction" =>
      Outcome.bind (requireAttr t.attrs "base") fun baseStr =>
        Outcome.bind (st.resolve_namespace baseStr) fun r =>
          .ok (r.2, .Restriction r.1)
    | _ => .ok (st, .Other loc)
  | some (.Restriction _) => .ok (st, .Other loc)
  | some (.Sequence _) =>
    match loc with
    | "element" =>
      Outcome.bind (requireAttr t.attrs "name") fun name =>
        match get_attribute t.attrs "type" with
        | some tyStr =>
          Outcome.bind (st.resolve_namespace tyStr) fun r =>
            .ok (r.2, .SequenceElement name (some r.1) none)
        | none => .ok (st, .SequenceElement name none none)
    | _ => .ok (st, .Other loc)
  | some (.SequenceElement _ _ _) =>
    match loc with
    | "complexType" => .ok (st, .ComplexType none none)
    | _ => .ok (st, .Other loc)
  | some (.Message _ _) =>
    match loc with
    | "part" =>
      Outcome.bind (requireAttr t.attrs "name") fun name =>
        Outcome.bind (requireAttr t.attrs "element") fun elStr =>
          Outcome.bind (st.resolve_namespace elStr) fun r =>
            .ok (r.2, .Part name r.1)
    | _ => .ok (st, .Other loc)
  | some (.Part _ _) => .ok (st, .Other loc)
  | some (.PortType _ _) =>
    match loc with
    | "operation" =>
      Outcome.bind (requireAttr t.attrs "name") fun name =>
        .ok (st, .Operation name none none none)
    | _ => .ok (st, .Other loc)
  | some (.Operation _ _ _ _) =>
    match loc with
    | "documentation" => .ok (st, .Documentation none)
    | "input" =>
      Outcome.bind (requireAttr t.attrs "message") fun msgStr =>
        Outcome.bind (st.resolve_namespace msgStr) fun r =>
          .ok (r.2, .Input r.1)
    | "output" =>
      Outcome.bind (requireAttr t.attrs "message") fun msgStr =>
        Outcome.bind (st.resolve_namespace msgStr) fun r =>
          .ok (r.2, .Output r.1)
    | _ => .ok (st, .Other loc)
  | some (.Documentation _) => .ok (st, .Other loc)
  | some (.Input _) => .ok (st, .Other loc)
  | some (.Output _) => .ok (st, .Other loc)
  | some (.Binding _ _ _ _) =>
    match loc with
    | "binding" =>
      Outcome.bind (requireAttr t.attrs "transport") fun transport =>
        .ok (st, .Transport transport)
    | "operation" =>
      Outcome.bind (requireAttr t.attrs "name") fun name =>
        .ok (st, .BindingOperation name none none none none)
    | _ => .ok (st, .Other loc)
  | some (.Transport _) => .ok (st, .Other loc)
  | some (.BindingOperation _ _ _ _ _) =>
    match loc with
    | "operation" =>
      Outcome.bind (requireAttr t.attrs "soapAction") fun action =>
        Outcome.bind (requireAttr t.attrs "style") fun style =>
          .ok (st, .OperationAction action style)
    | "input" => .ok (st, .BindingInput none)
    | "output" => .ok (st, .BindingOutput none)
    | _ => .ok (st, .Other loc)
  | some (.OperationAction _ _) => .ok (st, .Other loc)
  | some (.BindingInput _) =>
    match loc with
    | "body" =>
      Outcome.bind (requireAttr t.attrs "use") fun u =>
        .ok (st, .BindingBody u)
    | _ => .ok (st, .Other loc)
  | some (.BindingOutput _) =>
    match loc with
    | "body" =>
      Outcome.bind (requireAttr t.attrs "use") fun u =>
        .ok (st, .BindingBody u)
    | _ => .ok (st, .Other loc)
  | some (.BindingBody _) => .ok (st, .Other loc)
  | some (.Service _ _) =>
    match loc with
    | "port" =>
      Outcome.bind (requireAttr t.attrs "name") fun name =>
        Outcome.bind (requireAttr t.attrs "binding") fun bStr =>
          Outcome.bind (st.resolve_namespace bStr) fun r =>
            .ok (r.2, .Port name r.1 none)
    | _ => .ok (st, .Other loc)
  | some (.Port _ _ _) =>
    match loc with
    | "address" =>
      Outcome.bind (requireAttr t.attrs "location") fun location =>
        .ok (st, .Address location)
    | _ => .ok (st, .Other loc)
  | some (.Address _) => .ok (st, .Other loc)
  | some (.Import _) => .panic
  | some (.Other _) => .ok (st, .Other loc)

/-- `Parser::handle_start`: pop the top frame (the core sees it), re-extend
it, and push the freshly produced frame — so the stack always grows by one. -/
def handleStart (parseImport : String → ParserSt → Outcome ParserSt)
    (st : ParserSt) (stack : List ParseState) (t : StartTag) :
    Outcome (ParserSt × List ParseState) :=
  Outcome.bind (handleStartCore parseImport st stack.head? t) fun r =>
    .ok (r.1, r.2 :: stack)

/-- `Parser::handle_end` as a function of the finished frame and the (also
popped) parent frame; returns the possibly-mutated parent to re-push. -/
def handleEndCore (st : ParserSt) (finished : ParseState) (next : Option ParseState) :
    Outcome (ParserSt × Option ParseState) :=
  match finished, next with
  | .Definitions, _ => .ok (st.pop_target_namespace, next)
  | .Schema, _ => .ok (st.pop_target_namespace, next)
  | .Element name kind, _ =>
    match kind with
    | some k =>
      Outcome.bind (st.target_namespaced name) fun r => .ok (pushType r.2 r.1 k, next)
    | none => .panic
  | .ComplexType name kind, some (.SequenceElement sname _ _) =>
    (match name with
     | some nm =>
       Outcome.bind (st.target_namespaced nm) fun r =>
         .ok (r.2, some (.SequenceElement sname (some r.1) kind))
     | none => .ok (st, some (.SequenceElement sname none kind)))
  | .ComplexType name kind, some (.Element ename _) =>
    if name.isSome then .panic else .ok (st, some (.Element ename kind))
  | .ComplexType name kind, _ =>
    (match kind with
     | none => .panic
     | some k =>
       match name with
       | none => .panic
       | some nm =>
         Outcome.bind (st.target_namespaced nm) fun r => .ok (pushType r.2 r.1 k, next))
  | .ComplexContent fields, some (.ComplexType ctname ctkind) =>
    (match ctkind with
     | none => .ok (st, some (.ComplexType ctname (some (.Struct fields))))
     | some _ => .panic)
  | .ComplexContent _, _ => .panic
  | .ComplexExtension fields, some (.ComplexContent content) =>
    .ok (st, some (.ComplexContent (content ++ fields)))
  | .ComplexExtension _, _ => .panic
  | .SimpleContent ty, some (.ComplexType ctname ctkind) =>
    (match ctkind with
     | none =>
       match ty with
       | some tv => .ok (st, some (.ComplexType ctname (some (.Alias tv))))
       | none => .panic
     | some _ => .panic)
  | .SimpleContent _, _ => .panic
  | .SimpleExtension base, some (.SimpleContent _) =>
    .ok (st, some (.SimpleContent (some base)))
  | .SimpleExtension _, _ => .panic
  | .SimpleType name ty, _ =>
    (match ty with
     | some tv =>
       Outcome.bind (st.target_namespaced name) fun r =>
         .ok (pushType r.2 r.1 (.Simple tv), next)
     | none => .panic)
  | .Restriction base, some (.SimpleType sname _) =>
    .ok (st, some (.SimpleType sname (some base)))
  | .Restriction _, _ => .panic
  | .Sequence fields, some (.ComplexType ctname ctkind) =>
    (match ctkind with
     | none => .ok (st, some (.ComplexType ctname (some (.Struct fields))))
     | some _ => .panic)
  | .Sequence fields, some (.ComplexExtension efields) =>
    .ok (st, some (.ComplexExtension (efields ++ fields)))
  | .Sequence _, _ => .panic
  | .SequenceElement name ty inner, some (.Sequence fields) =>
    Outcome.bind (st.target_namespaced name) fun r =>
      (match inner with
       | some k => .ok (r.2, some (.Sequence (fields ++ [Field.mk r.1 (.Inner k)])))
       | none =>
         match ty with
         | some tv => .ok (r.2, some (.Sequence (fields ++ [Field.mk r.1 (.Ty tv)])))
         | none => .panic)
  | .SequenceElement _ _ _, _ => .panic
  | .Message name parts, _ =>
    Outcome.bind (st.target_namespaced name) fun r =>
      .ok ({ r.2 with definition :=
        { r.2.definition with messages := r.2.definition.messages ++ [⟨r.1, parts⟩] } }, next)
  | .Part name element, some (.Message mname parts) =>
    Outcome.bind (st.target_namespaced name) fun r =>
      .ok (r.2, some (.Message mname (parts ++ [Field.mk r.1 (.Ty element)])))
  | .Part _ _, _ => .panic
  | .PortType name ops, _ =>
    Outcome.bind (st.target_namespaced name) fun r =>
      .ok ({ r.2 with definition :=
        { r.2.definition with port_types := r.2.definition.port_types ++ [⟨r.1, ops⟩] } }, next)
  | .Operation name doc inp out, some (.PortType pname ops) =>
    Outcome.bind (st.target_namespaced name) fun r =>
      .ok (r.2, some (.PortType pname (ops ++ [⟨r.1, doc, inp, out⟩])))
  | .Operation _ _ _ _, _ => .panic
  | .Documentation text, some (.Operation oname _ inp out) =>
    .ok (st, some (.Operation oname text inp out))
  | .Documentation _, _ => .panic
  | .Input msg, some (.Operation oname doc inp out) =>
    (match inp with
     | none => .ok (st, some (.Operation oname doc (some msg) out))
     | some _ => .panic)
  | .Input _, _ => .panic
  | .Output msg, some (.Operation oname doc inp out) =>
    (match out with
     | none => .ok (st, some (.Operation oname doc inp (some msg)))
     | some _ => .panic)
  | .Output _, _ => .panic
  | .Transport kind, some (.Binding bn bt btr bops) =>
    (match btr with
     | none => .ok (st, some (.Binding bn bt (some kind) bops))
     | some _ => .panic)
  | .Transport _, _ => .panic
  | .Binding name ty transport ops, _ =>
    Outcome.bind (st.target_namespaced name) fun r =>
      (match transport with
       | some tr =>
         .ok ({ r.2 with definition :=
           { r.2.definition with bindings := r.2.definition.bindings ++ [⟨r.1, ty, tr, ops⟩] } },
           next)
       | none => .panic)
  | .BindingOperation name action style inp out, some (.Binding bn bt btr bops) =>
    Outcome.bind (st.target_namespaced name) fun r =>
      (match action, style with
       | some a, some s =>
         .ok (r.2, some (.Binding bn bt btr (bops ++ [⟨r.1, a, s, inp, out⟩])))
       | _, _ => .panic)
  | .BindingOperation _ _ _ _ _, _ => .panic
  | .OperationAction action style, some (.BindingOperation bon _ _ bi bo) =>
    .ok (st, some (.BindingOperation bon (some action) (some style) bi bo))
  | .OperationAction _ _, _ => .panic
  | .BindingInput body, some (.BindingOperation bon a s _ bo) =>
    .ok (st, some (.BindingOperation bon a s body bo))
  | .BindingInput _, _ => .panic
  | .BindingOutput body, some (.BindingOperation bon a s bi _) =>
    .ok (st, some (.BindingOperation bon a s bi body))
  | .BindingOutput _, _ => .panic
  | .BindingBody u, some (.BindingInput _) => .ok (st, some (.BindingInput (some u)))
  | .BindingBody u, some (.BindingOutput _) => .ok (st, some (.BindingOutput (some u)))
  | .BindingBody _, _ => .panic
  | .Service name ports, _ =>
    Outcome.bind (st.target_namespaced name) fun r =>
      .ok ({ r.2 with definition :=
        { r.2.definition with services := r.2.definition.services ++ [⟨r.1, ports⟩] } }, next)
  | .Port pname pbinding paddress, some (.Service sname ports) =>
    Outcome.bind (st.target_namespaced pname) fun r =>
      (match paddress with
       | some loc => .ok (r.2, some (.Service sname (ports ++ [⟨r.1, pbinding, loc⟩])))
       | none => .panic)
  | .Port _ _ _, _ => .panic
  | .Address loc, some (.Port pn pb _) => .ok (st, some (.Port pn pb (some loc)))
  | .Address _, _ => .panic
  | .Types, _ => .ok (st, next)
  | .Import _, _ => .ok (st, next)
  | .Other _, _ => .ok (st, next)

/-- `Parser::handle_end`: pop the finished frame and its parent, fold the
finished frame into the parent (or the definition), and re-push the parent.
On the empty stack both pops yield `None` and nothing happens. -/
def handleEnd (st : ParserSt) (stack : List ParseState) :
    Outcome (ParserSt × List ParseState) :=
  match stack with
  | [] => .ok (st, [])
  | finished :: rest =>
    Outcome.bind (handleEndCore st finished rest.head?) fun r =>
      .ok (r.1, r.2.toList ++ rest.tail)

/-- `Parser::handle_text`: only meaningful under a `Documentation` frame. -/
def handleText (st : ParserSt) (stack : List ParseState) (s : String) :
    ParserSt × List ParseState :=
  match stack with
  | .Documentation _ :: rest => (st, .Documentation (some s) :: rest)
  | _ => (st, stack)

/-- The event loop of `parse_xml`, exposing the running stack. -/
def runEvents (parseImport : String → ParserSt → Outcome ParserSt) :
    ParserSt → List ParseState → List XEvent → Outcome (ParserSt × List ParseState)
  | st, stack, [] => .ok (st, stack)
  | st, stack, .decl :: evs => runEvents parseImport st stack evs
  | st, stack, .other :: evs => runEvents parseImport st stack evs
  | st, stack, .text s :: evs =>
    let r := handleText st stack s
    runEvents parseImport r.1 r.2 evs
  | st, stack, .start t :: evs =>
    Outcome.bind (handleStart parseImport st stack t) fun r =>
      runEvents parseImport r.1 r.2 evs
  | st, stack, .endTag :: evs =>
    Outcome.bind (handleEnd st stack) fun r =>
      runEvents parseImport r.1 r.2 evs
  | st, stack, .empty t :: evs =>
    Outcome.bind (handleStart parseImport st stack t) fun r =>
      Outcome.bind (handleEnd r.1 r.2) fun r2 =>
        runEvents parseImport r2.1 r2.2 evs

/-- `Parser::parse_xml`: run a document's events against a fresh stack; the
stack is local to the invocation and discarded at `Eof`. -/
def parse_xml (parseImport : String → ParserSt → Outcome ParserSt)
    (st : ParserSt) (evs : List XEvent) : Outcome ParserSt :=
  Outcome.bind (runEvents parseImport st [] evs) fun r => .ok r.1

/-- `Parser::parse_url`, with the external world abstracted: `fetch` stands
for the scheme dispatch plus reading (it may return any `Error`), `join` for
`Url::join` (whose failure is `UrlParseError` via `?`). The fuel bounds the
depth of `import` recursion. -/
def parse_url (fetch : String → Outcome (List XEvent))
    (join : String → String → Option String) :
    Nat → String → ParserSt → Outcome ParserSt
  | 0, _, _ => .nofuel
  | fuel + 1, url, st =>
    Outcome.bind (fetch url) fun evs =>
      parse_xml
        (fun location st' =>
          match join st'.root location with
          | none => .err .UrlParseError
          | some u => parse_url fetch join fuel u st')
        st evs

/-- `parse`: run the parser from a root URL on a fresh state and return the
definition and namespace table. -/
def parse (fetch : String → Outcome (List XEvent))
    (join : String → String → Option String) (fuel : Nat) (url : String) :
    Outcome (Definition × Namespaces) :=
  Outcome.bind (parse_url fetch join fuel url { root := url }) fun st =>
    .ok (st.definition, st.namespaces)

/-! ### Stack discipline of the parser (C10) -/

theorem handleStart_length {parseImport : String → ParserSt → Outcome ParserSt}
    {st : ParserSt} {stack : List ParseState} {t : StartTag}
    {r : ParserSt × List ParseState}
    (h : handleStart parseImport st stack t = .ok r) :
    r.2.length = stack.length + 1 := by
  unfold handleStart at h
  obtain ⟨r0, _, hb⟩ := Outcome.bind_eq_ok h
  cases hb
  rfl

theorem handleEndCore_toList_length {st : ParserSt} {f : ParseState}
    {next : Option ParseState} {r : ParserSt × Option ParseState}
    (h : handleEndCore st f next = .ok r) :
    r.2.toList.length = next.toList.length := by
  unfold handleEndCore at h
  split at h
  all_goals
    repeat' first
      | exact Outcome.noConfusion h
      | (cases h; rfl)
      | split at h
      | obtain ⟨_, _, h⟩ := Outcome.bind_eq_ok h

theorem handleEnd_length {st : ParserSt} {stack : List ParseState}
    {r : ParserSt × List ParseState}
    (h : handleEnd st stack = .ok r) :
    r.2.length = stack.length - 1 ∧ (stack = [] → r.2 = []) := by
  cases stack with
  | nil =>
    cases h
    exact ⟨rfl, fun _ => rfl⟩
  | cons f rest =>
    unfold handleEnd at h
    obtain ⟨r0, hr, hb⟩ := Outcome.bind_eq_ok h
    cases hb
    have hlen := handleEndCore_toList_length hr
    constructor
    · cases rest with
      | nil =>
        simp only [List.head?] at hlen
        simp [hlen]
      | cons x xs =>
        simp only [List.head?] at hlen
        simp [hlen]
        omega
    · intro hc
      cases hc

theorem handleText_length (st : ParserSt) (stack : List ParseState) (s : String) :
    (handleText st stack s).2.length = stack.length := by
  unfold handleText
  split <;> rfl

/-- The nesting-depth underflow check for an event prefix starting at stack
depth `d`: every `End` event must find a non-empty stack. -/
def noUnderflow : Nat → List XEvent → Bool
  | _, [] => true
  | d, .start _ :: evs => noUnderflow (d + 1) evs
  | d, .endTag :: evs => decide (d ≠ 0) && noUnderflow (d - 1) evs
  | d, .empty _ :: evs => noUnderflow d evs
  | d, .decl :: evs => noUnderflow d evs
  | d, .text _ :: evs => noUnderflow d evs
  | d, .other :: evs => noUnderflow d evs

/-- XML element nesting depth after an event list, starting from depth `d`
(`Empty` opens and immediately closes, contributing nothing). -/
def depthAfter : Nat → List XEvent → Nat
  | d, [] => d
  | d, .start _ :: evs => depthAfter (d + 1) evs
  | d, .endTag :: evs => depthAfter (d - 1) evs
  | d, .empty _ :: evs => depthAfter d evs
  | d, .decl :: evs => depthAfter d evs
  | d, .text _ :: evs => depthAfter d evs
  | d, .other :: evs => depthAfter d evs

theorem runEvents_depth :
    ∀ (evs : List XEvent) (parseImport : String → ParserSt → Outcome ParserSt)
      (st : ParserSt) (stack : List ParseState) (st' : ParserSt)
      (stack' : List ParseState),
      noUnderflow stack.length evs = true →
      runEvents parseImport st stack evs = .ok (st', stack') →
      stack'.length = depthAfter stack.length evs := by
  intro evs
  induction evs with
  | nil =>
    intro pI st stack st' stack' _ h
    cases h
    rfl
  | cons ev rest ih =>
    intro pI st stack st' stack' hnu h
    cases ev with
    | decl => exact ih pI st stack st' stack' hnu h
    | other => exact ih pI st stack st' stack' hnu h
    | text s =>
      rw [runEvents] at h
      have := ih pI (handleText st stack s).1 (handleText st stack s).2 st' stack'
        (by rw [handleText_length]; exact hnu) h
      rw [handleText_length] at this
      exact this
    | start t =>
      rw [runEvents] at h
      obtain ⟨r, hr, hb⟩ := Outcome.bind_eq_ok h
      have hlen := handleStart_length hr
      have := ih pI r.1 r.2 st' stack' (by rw [hlen]; exact hnu) hb
      rw [hlen] at this
      exact this
    | endTag =>
      rw [runEvents] at h
      obtain ⟨r, hr, hb⟩ := Outcome.bind_eq_ok h
      rw [noUnderflow, Bool.and_eq_true, decide_eq_true_eq] at hnu
      have hlen := (handleEnd_length hr).1
      have := ih pI r.1 r.2 st' stack' (by rw [hlen]; exact hnu.2) hb
      rw [hlen] at this
      exact this
    | empty t =>
      rw [runEvents] at h
      obtain ⟨r, hr, hb⟩ := Outcome.bind_eq_ok h
      obtain ⟨r2, hr2, hb2⟩ := Outcome.bind_eq_ok hb
      have hlen1 := handleStart_length hr
      have hlen2 := (handleEnd_length hr2).1
      have heq : r2.2.length = stack.length := by omega
      have := ih pI r2.1 r2.2 st' stack' (by rw [heq]; exact hnu) hb2
      rw [heq] at this
      exact this

/-- **C10.** Parser stack discipline: a successfully handled `Start` event
grows the `ParseState` stack by exactly one frame; a successfully handled
`End` event on a non-empty stack shrinks it by exactly one frame (and leaves
the empty stack empty); an `Empty` element is processed as a `Start`
immediately followed by an `End` (literally, in `parse_xml`'s loop); and
consequently, after successfully processing any event-list prefix of a
well-formed document (one whose `End` events never meet an empty stack), the
stack depth equals the XML element nesting depth of that prefix. -/
theorem parser_stack_discipline :
    (∀ (parseImport : String → ParserSt → Outcome ParserSt) (st : ParserSt)
       (stack : List ParseState) (t : StartTag) (st' : ParserSt)
       (stack' : List ParseState),
       handleStart parseImport st stack t = .ok (st', stack') →
       stack'.length = stack.length + 1) ∧
    (∀ (st : ParserSt) (stack : List ParseState) (st' : ParserSt)
       (stack' : List ParseState),
       handleEnd st stack = .ok (st', stack') →
       (stack ≠ [] → stack'.length + 1 = stack.length) ∧ (stack = [] → stack' = [])) ∧
    (∀ (parseImport : String → ParserSt → Outcome ParserSt) (st : ParserSt)
       (stack : List ParseState) (t : StartTag) (evs : List XEvent),
       runEvents parseImport st stack (.empty t :: evs) =
         Outcome.bind (handleStart parseImport st stack t) fun r =>
           Outcome.bind (handleEnd r.1 r.2) fun r2 =>
             runEvents parseImport r2.1 r2.2 evs) ∧
    (∀ (evs : List XEvent) (parseImport : String → ParserSt → Outcome ParserSt)
       (st : ParserSt) (st' : ParserSt) (stack' : List ParseState),
       noUnderflow 0 evs = true →
       runEvents parseImport st [] evs = .ok (st', stack') →
       stack'.length = depthAfter 0 evs) := by
  refine ⟨?_, ?_, ?_, ?_⟩
  · intro pI st stack t st' stack' h
    exact handleStart_length h
  · intro st stack st' stack' h
    refine ⟨fun hne => ?_, fun he => (handleEnd_length h).2 he⟩
    have hl := (handleEnd_length h).1
    have hpos : 0 < stack.length := List.length_pos.mpr hne
    simp only at hl
    omega
  · intro pI st stack t evs
    rfl
  · intro evs pI st st' stack' hnu h
    exact runEvents_depth evs pI st [] st' stack' hnu h

/-- Witness for **C10** at concrete inputs: handling `<definitions …>` on the
empty stack yields a one-frame stack, and running a small well-formed document
prefix ends at its nesting depth. -/
theorem parser_stack_discipline_witness :
    ([ParseState.Definitions] : List ParseState).length = ([] : List ParseState).length + 1 ∧
    ([ParseState.Definitions] : List ParseState).length
      = depthAfter 0 [XEvent.start ⟨"definitions", [("targetNamespace", "urn:t")], none⟩] :=
  ⟨parser_stack_discipline.1 (fun _ st => .ok st) { root := "r" } []
      ⟨"definitions", [("targetNamespace", "urn:t")], none⟩
      { root := "r", current_namespaces := { target := ["urn:t"] } }
      [ParseState.Definitions] rfl,
    parser_stack_discipline.2.2.2
      [XEvent.start ⟨"definitions", [("targetNamespace", "urn:t")], none⟩]
      (fun _ st => .ok st) { root := "r" }
      { root := "r", current_namespaces := { target := ["urn:t"] } }
      [ParseState.Definitions] rfl rfl⟩

/-! ### `complexContent`/`extension` parsing (C9) -/

theorem spanUntilColon_no_colon {l : List Char} (h : ':' ∉ l) :
    spanUntilColon l = (l, none) := by
  induction l with
  | nil => rfl
  | cons c cs ih =>
    have hc : ¬ c = ':' := fun hc => h (by rw [hc]; exact List.mem_cons_self _ _)
    have hcs : ':' ∉ cs := fun hm => h (List.mem_cons_of_mem _ hm)
    simp [spanUntilColon, hc, ih hcs]

theorem split_tns (x : String) (hx : ':' ∉ x.data) :
    split_namespaced_name ("tns:" ++ x) = (some "tns", x) := by
  unfold split_namespaced_name
  rw [show ("tns:" ++ x).data = 't' :: 'n' :: 's' :: ':' :: x.data from rfl]
  rw [show spanUntilColon ('t' :: 'n' :: 's' :: ':' :: x.data)
      = (['t', 'n', 's'], some x.data) from rfl]
  show (some ⟨['t', 'n', 's']⟩, ⟨(spanUntilColon x.data).1⟩) = (some "tns", x)
  rw [spanUntilColon_no_colon hx]

theorem target_namespaced_stable {st : ParserSt} {tns : String} {ts : List String}
    {it : Nat} (htarget : st.current_namespaces.target = tns :: ts)
    (hidx : st.namespaces.index_of tns = some it) (x : String) :
    st.target_namespaced x = .ok (⟨it, x⟩, st) := by
  have hnew : NamespacedName.new st.namespaces tns x = (⟨it, x⟩, st.namespaces) := by
    unfold NamespacedName.new Namespaces.add_or_get
    rw [hidx]
  unfold ParserSt.target_namespaced
  rw [htarget]
  show Outcome.ok ((NamespacedName.new st.namespaces tns x).1,
      { root := st.root, definition := st.definition,
        namespaces := (NamespacedName.new st.namespaces tns x).2,
        current_namespaces := st.current_namespaces })
    = Outcome.ok (⟨it, x⟩, st)
  rw [hnew]

theorem resolve_namespace_tns {st : ParserSt} {tns : String} {ts : List String}
    {it : Nat} (htarget : st.current_namespaces.target = tns :: ts)
    (hidx : st.namespaces.index_of tns = some it) (x : String) (hx : ':' ∉ x.data) :
    st.resolve_namespace ("tns:" ++ x) = .ok (⟨it, x⟩, st) := by
  unfold ParserSt.resolve_namespace
  rw [split_tns x hx]
  exact target_namespaced_stable htarget hidx x

theorem runEvents_start_step {parseImport : String → ParserSt → Outcome ParserSt}
    {st : ParserSt} {stack : List ParseState} {t : StartTag} {st2 : ParserSt}
    {stack2 : List ParseState} (evs : List XEvent)
    (h : handleStart parseImport st stack t = .ok (st2, stack2)) :
    runEvents parseImport st stack (.start t :: evs) = runEvents parseImport st2 stack2 evs := by
  rw [runEvents, h]
  rfl

theorem runEvents_end_step (parseImport : String → ParserSt → Outcome ParserSt)
    {st : ParserSt} {stack : List ParseState} {st2 : ParserSt}
    {stack2 : List ParseState} (evs : List XEvent)
    (h : handleEnd st stack = .ok (st2, stack2)) :
    runEvents parseImport st stack (.endTag :: evs) = runEvents parseImport st2 stack2 evs := by
  rw [runEvents, h]
  rfl

/-- The two events of one `<element name=… type="tns:…"/>` child of a
`sequence`, for each requested field. -/
def c9ElementEvents : List (String × String) → List XEvent
  | [] => []
  | nt :: rest =>
    .start ⟨"element", [("name", nt.1), ("type", "tns:" ++ nt.2)], none⟩ ::
    .endTag :: c9ElementEvents rest

/-- The event span of
`<complexType name=N><complexContent><extension base="tns:X"><sequence> … </sequence></extension></complexContent></complexType>`. -/
def c9Events (N X : String) (elems : List (String × String)) : List XEvent :=
  .start ⟨"complexType", [("name", N)], none⟩ ::
  .start ⟨"complexContent", [], none⟩ ::
  .start ⟨"extension", [("base", "tns:" ++ X)], none⟩ ::
  .start ⟨"sequence", [], none⟩ ::
  (c9ElementEvents elems ++ [.endTag, .endTag, .endTag, .endTag])

/-- The intermediate-model field produced for a sequence `element` with name
and (tns-resolved) type. -/
def c9Field (it : Nat) (nt : String × String) : Field :=
  Field.mk ⟨it, nt.1⟩ (.Ty ⟨it, nt.2⟩)

theorem c9_loop (parseImport : String → ParserSt → Outcome ParserSt) {st : ParserSt}
    {tns : String} {ts : List String} {it : Nat}
    (htarget : st.current_namespaces.target = tns :: ts)
    (hidx : st.namespaces.index_of tns = some it) :
    ∀ (elems : List (String × String)) (fields : List Field) (S : List ParseState)
      (tailEvs : List XEvent),
      (∀ nt, nt ∈ elems → ':' ∉ (nt : String × String).2.data) →
      runEvents parseImport st (.Sequence fields :: S) (c9ElementEvents elems ++ tailEvs)
        = runEvents parseImport st
            (.Sequence (fields ++ elems.map (c9Field it)) :: S) tailEvs := by
  intro elems
  induction elems with
  | nil =>
    intro fields S tailEvs _
    simp [c9ElementEvents]
  | cons nt rest ih =>
    intro fields S tailEvs hcol
    have hres := resolve_namespace_tns htarget hidx nt.2 (hcol nt (List.mem_cons_self _ _))
    have htn := target_namespaced_stable htarget hidx nt.1
    have h1 : handleStart parseImport st (.Sequence fields :: S)
        ⟨"element", [("name", nt.1), ("type", "tns:" ++ nt.2)], none⟩
        = .ok (st, .SequenceElement nt.1 (some ⟨it, nt.2⟩) none :: .Sequence fields :: S) := by
      show Outcome.bind (Outcome.bind (st.resolve_namespace ("tns:" ++ nt.2)) fun r =>
          Outcome.ok (r.2, ParseState.SequenceElement nt.1 (some r.1) none))
          (fun r => Outcome.ok (r.1, r.2 :: ParseState.Sequence fields :: S)) = _
      rw [hres]
      rfl
    have h2 : handleEnd st
        (.SequenceElement nt.1 (some ⟨it, nt.2⟩) none :: .Sequence fields :: S)
        = .ok (st, .Sequence (fields ++ [c9Field it nt]) :: S) := by
      show Outcome.bind (Outcome.bind (st.target_namespaced nt.1) fun r =>
          Outcome.ok (r.2,
            some (ParseState.Sequence (fields ++ [Field.mk r.1 (.Ty ⟨it, nt.2⟩)]))))
          (fun r => Outcome.ok (r.1, r.2.toList ++ S)) = _
      rw [htn]
      rfl
    rw [c9ElementEvents]
    simp only [List.cons_append]
    rw [runEvents_start_step _ h1, runEvents_end_step parseImport _ h2,
      ih (fields ++ [c9Field it nt]) S tailEvs
        (fun m hm => hcol m (List.mem_cons_of_mem _ hm)),
      List.append_assoc, List.singleton_append, List.map]

/-- **C9.** Parsing `<complexType name=N><complexContent><extension
base="tns:X"><sequence>…</sequence></extension></complexContent></complexType>`
in a schema context appends to the model exactly one `Type` entry: a `Struct`
whose first field references `X` (under the synthetic name `base`) and whose
remaining fields are the extension's own sequence elements, in document
order. The hypotheses fix the in-scope target namespace (already interned at
index `it`) and require colon-free local names, so every `tns:`-prefixed
reference resolves to index `it`. -/
theorem complex_extension_struct (parseImport : String → ParserSt → Outcome ParserSt)
    (st : ParserSt) (S : List ParseState) (tns : String) (ts : List String)
    (it : Nat) (N X : String) (elems : List (String × String))
    (htarget : st.current_namespaces.target = tns :: ts)
    (hidx : st.namespaces.index_of tns = some it)
    (hX : ':' ∉ X.data)
    (helems : ∀ nt, nt ∈ elems → ':' ∉ (nt : String × String).2.data) :
    runEvents parseImport st (.Schema :: S) (c9Events N X elems)
      = .ok (pushType st ⟨it, N⟩
          (.Struct (Field.mk ⟨it, "base"⟩ (.Ty ⟨it, X⟩) :: elems.map (c9Field it))),
        .Schema :: S) := by
  have hresX := resolve_namespace_tns htarget hidx X hX
  have hresBase := resolve_namespace_tns htarget hidx "base" (by decide)
  have htnN := target_namespaced_stable htarget hidx N
  have h1 : handleStart parseImport st (.Schema :: S) ⟨"complexType", [("name", N)], none⟩
      = .ok (st, .ComplexType (some N) none :: .Schema :: S) := rfl
  have h2 : handleStart parseImport st (.ComplexType (some N) none :: .Schema :: S)
      ⟨"complexContent", [], none⟩
      = .ok (st, .ComplexContent [] :: .ComplexType (some N) none :: .Schema :: S) := rfl
  have h3 : handleStart parseImport st
      (.ComplexContent [] :: .ComplexType (some N) none :: .Schema :: S)
      ⟨"extension", [("base", "tns:" ++ X)], none⟩
      = .ok (st, .ComplexExtension [Field.mk ⟨it, "base"⟩ (.Ty ⟨it, X⟩)] ::
          .ComplexContent [] :: .ComplexType (some N) none :: .Schema :: S) := by
    show Outcome.bind (Outcome.bind (st.resolve_namespace ("tns:" ++ X)) fun r =>
        Outcome.bind (r.2.resolve_namespace "tns:base") fun r2 =>
          Outcome.ok (r2.2, ParseState.ComplexExtension [Field.mk r2.1 (.Ty r.1)]))
        (fun r => Outcome.ok (r.1, r.2 ::
          ParseState.ComplexContent [] :: ParseState.ComplexType (some N) none ::
          ParseState.Schema :: S)) = _
    rw [hresX]
    show Outcome.bind (Outcome.bind (st.resolve_namespace "tns:base") fun r2 =>
        Outcome.ok (r2.2, ParseState.ComplexExtension [Field.mk r2.1 (.Ty ⟨it, X⟩)]))
        (fun r => Outcome.ok (r.1, r.2 ::
          ParseState.ComplexContent [] :: ParseState.ComplexType (some N) none ::
          ParseState.Schema :: S)) = _
    rw [show ("tns:base" : String) = "tns:" ++ "base" from rfl, hresBase]
    rfl
  have h4 : handleStart parseImport st
      (.ComplexExtension [Field.mk ⟨it, "base"⟩ (.Ty ⟨it, X⟩)] ::
        .ComplexContent [] :: .ComplexType (some N) none :: .Schema :: S)
      ⟨"sequence", [], none⟩
      = .ok (st, .Sequence [] :: .ComplexExtension [Field.mk ⟨it, "base"⟩ (.Ty ⟨it, X⟩)] ::
          .ComplexContent [] :: .ComplexType (some N) none :: .Schema :: S) := rfl
  have e1 : handleEnd st
      (.Sequence (elems.map (c9Field it)) ::
        .ComplexExtension [Field.mk ⟨it, "base"⟩ (.Ty ⟨it, X⟩)] ::
        .ComplexContent [] :: .ComplexType (some N) none :: .Schema :: S)
      = .ok (st, .ComplexExtension
          (Field.mk ⟨it, "base"⟩ (.Ty ⟨it, X⟩) :: elems.map (c9Field it)) ::
        .ComplexContent [] :: .ComplexType (some N) none :: .Schema :: S) := rfl
  have e2 : handleEnd st
      (.ComplexExtension (Field.mk ⟨it, "base"⟩ (.Ty ⟨it, X⟩) :: elems.map (c9Field it)) ::
        .ComplexContent [] :: .ComplexType (some N) none :: .Schema :: S)
      = .ok (st, .ComplexContent
          (Field.mk ⟨it, "base"⟩ (.Ty ⟨it, X⟩) :: elems.map (c9Field it)) ::
        .ComplexType (some N) none :: .Schema :: S) := rfl
  have e3 : handleEnd st
      (.ComplexContent (Field.mk ⟨it, "base"⟩ (.Ty ⟨it, X⟩) :: elems.map (c9Field it)) ::
        .ComplexType (some N) none :: .Schema :: S)
      = .ok (st, .ComplexType (some N)
          (some (.Struct (Field.mk ⟨it, "base"⟩ (.Ty ⟨it, X⟩) :: elems.map (c9Field it)))) ::
        .Schema :: S) := rfl
  have e4 : handleEnd st
      (.ComplexType (some N)
          (some (.Struct (Field.mk ⟨it, "base"⟩ (.Ty ⟨it, X⟩) :: elems.map (c9Field it)))) ::
        .Schema :: S)
      = .ok (pushType st ⟨it, N⟩
          (.Struct (Field.mk ⟨it, "base"⟩ (.Ty ⟨it, X⟩) :: elems.map (c9Field it))),
        .Schema :: S) := by
    show Outcome.bind (Outcome.bind (st.target_namespaced N) fun r =>
        Outcome.ok (pushType r.2 r.1
          (.Struct (Field.mk ⟨it, "base"⟩ (.Ty ⟨it, X⟩) :: elems.map (c9Field it))),
          some ParseState.Schema))
        (fun r => Outcome.ok (r.1, r.2.toList ++ S)) = _
    rw [htnN]
    rfl
  rw [c9Events, runEvents_start_step _ h1, runEvents_start_step _ h2,
    runEvents_start_step _ h3, runEvents_start_step _ h4,
    c9_loop parseImport htarget hidx elems [] _ _ helems,
    List.nil_append,
    runEvents_end_step parseImport _ e1, runEvents_end_step parseImport _ e2,
    runEvents_end_step parseImport _ e3, runEvents_end_step parseImport _ e4,
    runEvents]

/-! ### Structural violations (C7) -/

/-- The per-service body of the loop in `preprocess`. -/
def resolve_service (definition : Definition) (service : Service) : Outcome cg.Service :=
  Outcome.bind (mapOutcome (resolve_port definition) service.ports) fun ports =>
    .ok { name := service.name, ports := ports }

theorem resolve_port_ok_or_panic (d : Definition) (p : Port) :
    (∃ r, resolve_port d p = .ok r) ∨ resolve_port d p = .panic := by
  rcases hb : d.bindings.find? (fun binding => binding.name == p.binding) with _ | b
  · exact Or.inr (by simp only [resolve_port, hb])
  · rcases ht : d.port_types.find? (fun port_type => port_type.name == b.ty) with _ | pt
    · exact Or.inr (by simp only [resolve_port, hb, ht])
    · refine Or.inl ⟨{ name := p.name, location := p.location, operations := pt.operations }, ?_⟩
      simp only [resolve_port, hb, ht]

theorem mapOutcome_ok_or_panic {α β : Type} {f : α → Outcome β}
    (hall : ∀ x, (∃ r, f x = .ok r) ∨ f x = .panic) (xs : List α) :
    (∃ rs, mapOutcome f xs = .ok rs) ∨ mapOutcome f xs = .panic := by
  induction xs with
  | nil => exact Or.inl ⟨[], rfl⟩
  | cons x xs ih =>
    rcases hall x with ⟨r, hr⟩ | hr
    · rcases ih with ⟨rs, hrs⟩ | hrs
      · exact Or.inl ⟨r :: rs, by simp only [mapOutcome, hr, hrs, Outcome.bind]⟩
      · exact Or.inr (by simp only [mapOutcome, hr, hrs, Outcome.bind])
    · exact Or.inr (by simp only [mapOutcome, hr, Outcome.bind])

theorem mapOutcome_panic {α β : Type} {f : α → Outcome β}
    (hall : ∀ x, (∃ r, f x = .ok r) ∨ f x = .panic) {x : α} {xs : List α}
    (hx : x ∈ xs) (hp : f x = .panic) : mapOutcome f xs = .panic := by
  induction xs with
  | nil => cases hx
  | cons a as ih =>
    rcases List.mem_cons.mp hx with h | h
    · subst h
      simp only [mapOutcome, hp, Outcome.bind]
    · rcases hall a with ⟨r, hr⟩ | hr
      · simp only [mapOutcome, hr, Outcome.bind, ih h]
      · simp only [mapOutcome, hr, Outcome.bind]

/-- A definition whose single binding references a `portType` that does not
exist (`port_types` is empty). -/
def c7Definition : Definition :=
  { bindings := [⟨⟨0, "B"⟩, ⟨0, "Missing"⟩, "http://schemas.xmlsoap.org/soap/http", []⟩],
    services := [⟨⟨0, "S"⟩, [⟨⟨0, "P"⟩, ⟨0, "B"⟩, "http://example.org/svc"⟩]⟩] }

/-- **C7 counterexample.** A binding naming an undefined `portType` does not
make resolution fail with any error value of the `Error` enum (which has no
`StructuralError` variant at all): `preprocess` hits `unimplemented!()`, i.e.
it panics. -/
theorem unresolved_port_type_panics_not_error :
    (∀ e : Error, preprocess c7Definition ≠ Outcome.err e) ∧
      preprocess c7Definition = Outcome.panic := by
  have h : preprocess c7Definition = Outcome.panic := rfl
  exact ⟨fun e he => by rw [h] at he; exact Outcome.noConfusion he, h⟩

/-- **C7 (amended).** Well-formed XML that violates the expected WSDL/XSD
shape is fatal, but via `unimplemented!()` panics, not via an error value:
(1) if any port's binding resolves to a binding whose `type` names no
declared `portType`, `preprocess` panics; (2) a `definitions` root element
without a `targetNamespace` attribute makes the parser panic. The `Error`
enum has no `StructuralError` variant. -/
theorem wsdl_shape_violations_panic :
    (∀ (d : Definition) (s : Service) (p : Port) (b : Binding),
        s ∈ d.services → p ∈ s.ports →
        d.bindings.find? (fun binding => binding.name == p.binding) = some b →
        d.port_types.find? (fun port_type => port_type.name == b.ty) = none →
        preprocess d = .panic) ∧
    (∀ (parseImport : String → ParserSt → Outcome ParserSt) (st : ParserSt)
        (attrs : List (String × String)),
        get_attribute attrs "targetNamespace" = none →
        handleStart parseImport st [] ⟨"definitions", attrs, none⟩ = .panic) := by
  constructor
  · intro d s p b hs hp hb ht
    have hpp : resolve_port d p = .panic := by
      simp only [resolve_port, hb, ht]
    have hports : mapOutcome (resolve_port d) s.ports = .panic :=
      mapOutcome_panic (resolve_port_ok_or_panic d) hp hpp
    have hallS : ∀ sv, (∃ r, resolve_service d sv = .ok r) ∨ resolve_service d sv = .panic := by
      intro sv
      rcases mapOutcome_ok_or_panic (resolve_port_ok_or_panic d) sv.ports with ⟨rs, hrs⟩ | hrs
      · refine Or.inl ⟨{ name := sv.name, ports := rs }, ?_⟩
        simp only [resolve_service, hrs, Outcome.bind]
      · exact Or.inr (by simp only [resolve_service, hrs, Outcome.bind])
    have hsv : resolve_service d s = .panic := by
      simp only [resolve_service, hports, Outcome.bind]
    have hpre : preprocess d = Outcome.bind (mapOutcome (resolve_service d) d.services)
        (fun services => Outcome.ok
          { services := services, messages := d.messages, types := d.types : cg.Definition }) :=
      rfl
    rw [hpre, mapOutcome_panic hallS hs hsv]
    rfl
  · intro parseImport st attrs hattr
    show Outcome.bind (Outcome.bind (requireAttr attrs "targetNamespace") fun ns =>
        Outcome.ok ((scan_xmlns st attrs).push_target_namespace ns, ParseState.Definitions))
      (fun r => Outcome.ok (r.1, r.2 :: ([] : List ParseState))) = Outcome.panic
    unfold requireAttr
    rw [hattr]
    rfl

/-- Witness for **C7 (amended)** at concrete inputs: the definition of the
counterexample, and a `definitions` tag carrying only a `name` attribute. -/
theorem wsdl_shape_violations_panic_witness :
    preprocess c7Definition = Outcome.panic ∧
    handleStart (fun _ st => Outcome.ok st)
        { root := "r", namespaces := [], current_namespaces := {} } []
        ⟨"definitions", [("name", "d")], none⟩ = Outcome.panic :=
  ⟨wsdl_shape_violations_panic.1 c7Definition
      ⟨⟨0, "S"⟩, [⟨⟨0, "P"⟩, ⟨0, "B"⟩, "http://example.org/svc"⟩]⟩
      ⟨⟨0, "P"⟩, ⟨0, "B"⟩, "http://example.org/svc"⟩
      ⟨⟨0, "B"⟩, ⟨0, "Missing"⟩, "http://schemas.xmlsoap.org/soap/http", []⟩
      (List.mem_singleton.mpr rfl) (List.mem_singleton.mpr rfl) rfl rfl,
    wsdl_shape_violations_panic.2 (fun _ st => Outcome.ok st)
      { root := "r", namespaces := [], current_namespaces := {} }
      [("name", "d")] rfl⟩

/-- Witness for **C9** at a concrete schema state and one sequence element. -/
theorem complex_extension_struct_witness :
    runEvents (fun _ st => .ok st)
        { root := "r", namespaces := ["urn:t"],
          current_namespaces := { target := ["urn:t"] } }
        [.Schema] (c9Events "Derived" "Base" [("extra", "string")])
      = .ok (pushType
          { root := "r", namespaces := ["urn:t"],
            current_namespaces := { target := ["urn:t"] } }
          ⟨0, "Derived"⟩
          (.Struct (Field.mk ⟨0, "base"⟩ (.Ty ⟨0, "Base"⟩) ::
            [("extra", "string")].map (c9Field 0))),
        [.Schema]) :=
  complex_extension_struct (fun _ st => .ok st)
    { root := "r", namespaces := ["urn:t"],
      current_namespaces := { target := ["urn:t"] } }
    [] "urn:t" [] 0 "Derived" "Base" [("extra", "string")]
    rfl rfl (by decide) (by decide)

/-! ## The generated serialization runtime (C1, C2, C4)

Embedding of the code *generated* by `src/codegen/src/codegen.rs` together
with the hand-written `Envelope` framing from `src/util/src/soap.rs` and the
reader helpers from `src/util/src/xml.rs`. The generated `to_xml`/`from_xml`
bodies are determined by the intermediate-model type they were generated
from, so they are embedded as interpreters over the type environment (the
definition's `types` list). XML text escaping (`BytesText::from_plain_str`
on the way out, `unescaped()` on the way in) is an inverse pair and is
modelled as the identity. The indenting writer only ever inserts
whitespace-only text events between tags (never adjacent to a written text
node), and the reader is configured with `trim_text(true)`, which trims text
events and drops the ones that become empty; `readerView` below models that
reader-side view of a written event stream. -/

/-- An XML event at the level seen by the generated writers and readers:
start tags with their attributes, text nodes, and end tags. -/
inductive SEvent where
  | start (name : String) (attrs : List (String × String))
  | text (s : String)
  | stop
deriving DecidableEq

/-- The whitespace bytes trimmed by quick-xml's `trim_text`. -/
def isWs (c : Char) : Bool := c = ' ' || c = '\t' || c = '\r' || c = '\n'

/-- Trim whitespace from both ends of a character list. -/
def trimChars (l : List Char) : List Char :=
  ((l.dropWhile isWs).reverse.dropWhile isWs).reverse

def trimString (s : String) : String := ⟨trimChars s.data⟩

/-- One event as seen by the reader under `trim_text(true)`: text is
trimmed, and text that becomes empty disappears. -/
def viewEvent : SEvent → Option SEvent
  | .text s => if trimChars s.data = [] then none else some (.text (trimString s))
  | e => some e

/-- The reader's view of a written event stream under `trim_text(true)`:
text events are trimmed, and those that become empty (in particular the
writer's indentation, and empty written strings) disappear. -/
def readerView (evs : List SEvent) : List SEvent :=
  evs.filterMap viewEvent

/-- quick-xml `local_name`: the bytes after the first colon (the whole name
when there is none). -/
def local_name (s : String) : String :=
  match spanUntilColon s.data with
  | (_, none) => s
  | (_, some rest) => ⟨rest⟩

/-- The `to_xml` element name `format!("ns{}:{}", name.index(), name.name)`. -/
def xmlName (n : NamespacedName) : String :=
  "ns" ++ ⟨formatNat n.namespace_idx⟩ ++ ":" ++ n.name

/-- `get_ty_ident` from `codegen.rs`: the Rust type for a built-in XSD name. -/
def get_ty_ident (ty : String) : Option String :=
  match ty with
  | "boolean" => some "bool"
  | "int" => some "isize"
  | "unsignedShort" => some "u16"
  | "unsignedInt" => some "usize"
  | "dateTime" => some "String"
  | "string" => some "String"
  | _ => none

/-- The attribute list added by the generated `with_attributes` helper: one
`xmlns:ns{i}` declaration per entry of the `Namespaces` table. -/
def nsAttrs (namespaces : Namespaces) : List (String × String) :=
  namespaces.enum.map fun p => ("xmlns:ns" ++ ⟨formatNat p.1⟩, p.2)

/-- A runtime value of a generated Rust type: the built-ins `bool`, `isize`,
`u16`/`usize`, `String`, and generated structs (fields in declaration
order). -/
inductive Value where
  | vBool (b : Bool)
  | vInt (i : Int)
  | vNat (n : Nat)
  | vString (s : String)
  | vStruct (fields : List Value)

/-- `format!("{}", self.field)` — Rust `Display` for the built-in types. -/
def renderPrim : Value → Option String
  | .vBool b => some ⟨formatBool b⟩
  | .vInt i => some ⟨formatInt i⟩
  | .vNat n => some ⟨formatNat n⟩
  | .vString s => some s
  | .vStruct _ => none

/-- `text.parse().unwrap()` — Rust `FromStr` at the built-in target type; a
parse failure panics. -/
def parseBuiltin (ty : String) (s : String) : Outcome Value :=
  match ty with
  | "boolean" =>
    match parseBool s.data with
    | some b => .ok (.vBool b)
    | none => .panic
  | "int" =>
    match parseInt s.data with
    | some i => .ok (.vInt i)
    | none => .panic
  | "unsignedShort" =>
    match parseNat s.data with
    | some n => .ok (.vNat n)
    | none => .panic
  | "unsignedInt" =>
    match parseNat s.data with
    | some n => .ok (.vNat n)
    | none => .panic
  | "dateTime" => .ok (.vString s)
  | "string" => .ok (.vString s)
  | _ => .panic

/-- Look a named type up in the definition's `types` list. -/
def lookupType (env : List TypeDecl) (n : NamespacedName) : Option TypeKind :=
  (env.find? fun td => td.name == n).map TypeDecl.kind

/-- `expect_start(reader, buffer, name).unwrap()`: the next significant event
must be a start tag whose `local_name` is `name` (attributes are ignored). -/
def expect_start (events : List SEvent) (name : String) : Outcome (List SEvent) :=
  match events with
  | .start n _ :: rest => if local_name n = name then .ok rest else .panic
  | _ => .panic

/-- `expect_value(reader, buffer).unwrap()`: the next raw event must be a
text node. -/
def expect_value (events : List SEvent) : Outcome (String × List SEvent) :=
  match events with
  | .text s :: rest => .ok (s, rest)
  | _ => .panic

/-- `expect_end(reader, buffer).unwrap()`: the next raw event must be an end
tag. -/
def expect_end (events : List SEvent) : Outcome (List SEvent) :=
  match events with
  | .stop :: rest => .ok rest
  | _ => .panic

/-- The three mutually recursive shapes of generated serialization code: a
declared type's `to_xml`/`from_xml`, one field of a struct or message, and a
field sequence. Packed into one inductive so that the interpreters are plain
structural recursion on fuel. -/
inductive XmlTask where
  | ofType (tyName : NamespacedName) (v : Value)
  | ofField (fname : NamespacedName) (kind : FieldKind) (v : Value)
  | ofFields (fields : List Field) (vs : List Value)

/-- Reader-side counterpart of `XmlTask` (no values to carry). -/
inductive ReadTask where
  | ofType (tyName : NamespacedName)
  | ofField (fname : NamespacedName) (kind : FieldKind)
  | ofFields (fields : List Field)

/-- The generated `ToXml` implementations, as one interpreter.

* `ofType`, `Simple` branch: the generated code writes
  `format!("{}", 0)` — the constant `"0"` — as the text content, whatever
  the wrapped value is (the C2 bug). A non-built-in base makes codegen's
  `get_ty_ident(..).unwrap()` panic.
* `ofType`, `Struct` branch: start tag named `ns{i}:{local}`, carrying the
  `with_attributes` namespace declarations exactly when `top_level`; then
  the fields with `top_level = false`; then the end tag.
* `ofField` with a built-in type reference: an element named after the
  *field*, no attributes ever, text = `Display` of the field value.
* `ofField` with a non-built-in reference: `self.field.to_xml(writer,
  top_level)`.
* `ofField` with an inline singleton struct: collapsed onto the outer field
  name (`codegen_to_xml_field` recursion); any other inline shape is
  `unimplemented!()`.
* `ofFields`: each field in order (a message's `to_xml` is exactly this,
  with `top_level` passed through unchanged). -/
def toXmlGo (env : List TypeDecl) (ns : Namespaces) :
    Nat → XmlTask → Bool → Outcome (List SEvent)
  | 0, _, _ => .nofuel
  | fuel + 1, .ofType tyName v, top_level =>
    match lookupType env tyName with
    | none => .panic
    | some (.Simple base) =>
      match get_ty_ident base.name with
      | none => .panic
      | some _ =>
        .ok [.start (xmlName tyName) (if top_level then nsAttrs ns else []),
          .text ⟨formatNat 0⟩, .stop]
    | some (.Struct fields) =>
      match v with
      | .vStruct vs =>
        Outcome.bind (toXmlGo env ns fuel (.ofFields fields vs) false) fun evs =>
          .ok (.start (xmlName tyName) (if top_level then nsAttrs ns else []) ::
            evs ++ [.stop])
      | _ => .panic
    | some (.Alias _) => .panic
  | fuel + 1, .ofField fname (.Ty ty) v, top_level =>
    match get_ty_ident ty.name with
    | some _ =>
      match renderPrim v with
      | some s => .ok [.start (xmlName fname) [], .text s, .stop]
      | none => .panic
    | none => toXmlGo env ns fuel (.ofType ty v) top_level
  | fuel + 1, .ofField fname (.Inner (.Struct [.mk _ fty])) v, top_level =>
    toXmlGo env ns fuel (.ofField fname fty v) top_level
  | _ + 1, .ofField _ (.Inner _) _, _ => .panic
  | _ + 1, .ofFields [] [], _ => .ok []
  | fuel + 1, .ofFields (.mk fname fty :: fs) (v :: vs), top_level =>
    Outcome.bind (toXmlGo env ns fuel (.ofField fname fty v) top_level) fun evs1 =>
      Outcome.bind (toXmlGo env ns fuel (.ofFields fs vs) top_level) fun evs2 =>
        .ok (evs1 ++ evs2)
  | _ + 1, .ofFields _ _, _ => .panic

/-- Plumbing for `fromXmlGo`: cons one parsed field value onto the packed
result of the remaining fields. -/
def consField (r rs : Value × List SEvent) : Outcome (Value × List SEvent) :=
  match rs.1 with
  | .vStruct vs => .ok (.vStruct (r.1 :: vs), rs.2)
  | _ => .panic

/-- The generated `FromXml` implementations, as one interpreter. Field
sequences return their collected values as a `vStruct`. -/
def fromXmlGo (env : List TypeDecl) :
    Nat → ReadTask → List SEvent → Outcome (Value × List SEvent)
  | 0, _, _ => .nofuel
  | fuel + 1, .ofType tyName, events =>
    match lookupType env tyName with
    | none => .panic
    | some (.Simple base) =>
      match get_ty_ident base.name with
      | none => .panic
      | some _ =>
        Outcome.bind (expect_start events tyName.name) fun ev1 =>
          Outcome.bind (expect_value ev1) fun r =>
            Outcome.bind (expect_end r.2) fun ev2 =>
              Outcome.bind (parseBuiltin base.name r.1) fun v => .ok (v, ev2)
    | some (.Struct fields) =>
      Outcome.bind (expect_start events tyName.name) fun ev1 =>
        Outcome.bind (fromXmlGo env fuel (.ofFields fields) ev1) fun r =>
          Outcome.bind (expect_end r.2) fun ev2 => .ok (r.1, ev2)
    | some (.Alias _) => .panic
  | fuel + 1, .ofField fname (.Ty ty), events =>
    match get_ty_ident ty.name with
    | some _ =>
      Outcome.bind (expect_start events fname.name) fun ev1 =>
        Outcome.bind (expect_value ev1) fun r =>
          Outcome.bind (expect_end r.2) fun ev2 =>
            Outcome.bind (parseBuiltin ty.name r.1) fun v => .ok (v, ev2)
    | none => fromXmlGo env fuel (.ofType ty) events
  | fuel + 1, .ofField fname (.Inner (.Struct [.mk _ fty])), events =>
    fromXmlGo env fuel (.ofField fname fty) events
  | _ + 1, .ofField _ (.Inner _), _ => .panic
  | _ + 1, .ofFields [], events => .ok (.vStruct [], events)
  | fuel + 1, .ofFields (.mk fname fty :: fs), events =>
    Outcome.bind (fromXmlGo env fuel (.ofField fname fty) events) fun r =>
      Outcome.bind (fromXmlGo env fuel (.ofFields fs) r.2) fun rs => consField r rs

/-- The generated `to_xml` of the type named `tyName`. -/
def typeToXml (env : List TypeDecl) (ns : Namespaces) (fuel : Nat)
    (tyName : NamespacedName) (v : Value) (top_level : Bool) : Outcome (List SEvent) :=
  toXmlGo env ns fuel (.ofType tyName v) top_level

/-- The generated `to_xml` of a message: its parts in order, `top_level`
passed through unchanged, no wrapper element of its own. -/
def messageToXml (env : List TypeDecl) (ns : Namespaces) (fuel : Nat)
    (m : Message) (v : Value) (top_level : Bool) : Outcome (List SEvent) :=
  match v with
  | .vStruct vs => toXmlGo env ns fuel (.ofFields m.parts vs) top_level
  | _ => .panic

/-- The generated `from_xml` of the type named `tyName`. -/
def typeFromXml (env : List TypeDecl) (fuel : Nat) (tyName : NamespacedName)
    (events : List SEvent) : Outcome (Value × List SEvent) :=
  fromXmlGo env fuel (.ofType tyName) events

/-- The generated `from_xml` of a message. -/
def messageFromXml (env : List TypeDecl) (fuel : Nat) (m : Message)
    (events : List SEvent) : Outcome (Value × List SEvent) :=
  fromXmlGo env fuel (.ofFields m.parts) events

/-- `Envelope::to_xml` with `to_request`'s `top_level = true`: the
`soapenv:Envelope` start tag carries exactly the single `xmlns:soapenv`
declaration, `soapenv:Body` carries none, and the body is the message with
`top_level = true`. -/
def envelopeToXml (env : List TypeDecl) (ns : Namespaces) (fuel : Nat)
    (m : Message) (v : Value) : Outcome (List SEvent) :=
  Outcome.bind (messageToXml env ns fuel m v true) fun body =>
    .ok (.start "soapenv:Envelope"
          [("xmlns:soapenv", "http://schemas.xmlsoap.org/soap/envelope/")] ::
        .start "soapenv:Body" [] :: body ++ [.stop, .stop])

/-- `Envelope::from_xml`. -/
def envelopeFromXml (env : List TypeDecl) (fuel : Nat) (m : Message)
    (events : List SEvent) : Outcome (Value × List SEvent) :=
  Outcome.bind (expect_start events "Envelope") fun e1 =>
    Outcome.bind (expect_start e1 "Body") fun e2 =>
      Outcome.bind (messageFromXml env fuel m e2) fun r =>
        Outcome.bind (expect_end r.2) fun e3 =>
          Outcome.bind (expect_end e3) fun e4 => .ok (r.1, e4)

/-! ### Character-class facts about the decimal renderings -/

theorem toDigitChar_not_ws {d : Nat} (h : d < 10) : isWs (toDigitChar d) = false := by
  interval_cases d <;> decide

theorem toDigitChar_ne_colon {d : Nat} (h : d < 10) : toDigitChar d ≠ ':' := by
  interval_cases d <;> decide

theorem formatNatAux_all_digits :
    ∀ fuel n c, c ∈ formatNatAux fuel n → ∃ d, d < 10 ∧ c = toDigitChar d := by
  intro fuel
  induction fuel with
  | zero =>
    intro n c hc
    simp [formatNatAux] at hc
  | succ f ih =>
    intro n c hc
    rw [formatNatAux] at hc
    split at hc
    · next h10 =>
      rw [List.mem_singleton] at hc
      exact ⟨n, h10, hc⟩
    · rcases List.mem_append.mp hc with h1 | h2
      · exact ih _ _ h1
      · rw [List.mem_singleton] at h2
        exact ⟨n % 10, Nat.mod_lt _ (by omega), h2⟩

theorem formatNat_all_digits {n : Nat} {c : Char} (hc : c ∈ formatNat n) :
    ∃ d, d < 10 ∧ c = toDigitChar d :=
  formatNatAux_all_digits (n + 1) n c hc

theorem formatNat_no_ws {n : Nat} {c : Char} (hc : c ∈ formatNat n) : isWs c = false := by
  obtain ⟨d, hd, rfl⟩ := formatNat_all_digits hc
  exact toDigitChar_not_ws hd

theorem formatNat_no_colon {n : Nat} : ':' ∉ formatNat n := by
  intro hc
  obtain ⟨d, hd, h⟩ := formatNat_all_digits hc
  exact toDigitChar_ne_colon hd h.symm

theorem dropWhile_eq_self_of_head {p : Char → Bool} {l : List Char}
    (h : ∀ c ∈ l, p c = false) : l.dropWhile p = l := by
  cases l with
  | nil => rfl
  | cons c cs =>
    rw [List.dropWhile_cons, h c (List.mem_cons_self _ _)]
    simp

theorem trimChars_eq_self {l : List Char} (h : ∀ c ∈ l, isWs c = false) :
    trimChars l = l := by
  unfold trimChars
  rw [dropWhile_eq_self_of_head h,
    dropWhile_eq_self_of_head (fun c hc => h c (List.mem_reverse.mp hc)),
    List.reverse_reverse]

theorem trim_formatNat (n : Nat) :
    trimChars (formatNat n) = formatNat n ∧ formatNat n ≠ [] :=
  ⟨trimChars_eq_self (fun _ hc => formatNat_no_ws hc), formatNat_ne_nil n⟩

theorem trim_formatInt (i : Int) :
    trimChars (formatInt i) = formatInt i ∧ formatInt i ≠ [] := by
  unfold formatInt
  split
  · refine ⟨trimChars_eq_self ?_, by simp⟩
    intro c hc
    rcases List.mem_cons.mp hc with rfl | hc
    · decide
    · exact formatNat_no_ws hc
  · exact trim_formatNat i.natAbs

theorem trim_formatBool (b : Bool) :
    trimChars (formatBool b) = formatBool b ∧ formatBool b ≠ [] := by
  cases b <;> exact ⟨by decide, by decide⟩

/-! ### Splitting generated element names -/

theorem spanUntilColon_append_colon {l : List Char} (r : List Char) (h : ':' ∉ l) :
    spanUntilColon (l ++ ':' :: r) = (l, some r) := by
  induction l with
  | nil => simp [spanUntilColon]
  | cons c cs ih =>
    have hc : ¬ c = ':' := fun hc => h (by rw [hc]; exact List.mem_cons_self _ _)
    rw [List.cons_append, spanUntilColon, if_neg hc,
      ih (fun hm => h (List.mem_cons_of_mem _ hm))]

theorem xmlName_data (n : NamespacedName) :
    (xmlName n).data = ('n' :: 's' :: formatNat n.namespace_idx) ++ ':' :: n.name.data := by
  show ("ns" ++ ⟨formatNat n.namespace_idx⟩ ++ ":" ++ n.name).data = _
  rw [string_append_data, string_append_data, string_append_data]
  simp [List.append_assoc]

theorem local_name_xmlName (n : NamespacedName) : local_name (xmlName n) = n.name := by
  unfold local_name
  rw [xmlName_data, spanUntilColon_append_colon]
  · intro hc
    rcases List.mem_cons.mp hc with h | hc
    · exact (by decide : (':' : Char) ≠ 'n') h
    · rcases List.mem_cons.mp hc with h | hc
      · exact (by decide : (':' : Char) ≠ 's') h
      · exact formatNat_no_colon hc

/-! ### C2: the `Simple` newtype serializer writes a constant -/

/-- A model containing exactly the `CRSType` simpleType-by-restriction of
`string` from the claim's example. -/
def c2Env : List TypeDecl := [⟨⟨0, "CRSType"⟩, .Simple ⟨0, "string"⟩⟩]

def c2Ns : Namespaces := ["urn:example"]

/-- **C2.** The spec says a generated `Simple` newtype serializes its wrapped
value (`CRSType("BSK")` as `<ns0:CRSType>BSK</ns0:CRSType>`). The generated
code writes `format!("{}", 0)` — the constant string `"0"` — as the text
content, discarding the wrapped value: for *every* value `v` the serializer
emits `<ns0:CRSType>0</ns0:CRSType>`, whose text node differs from the
expected `BSK`. This is a code bug (the element name and framing do match
the spec). -/
theorem simple_newtype_serializes_constant_zero :
    (∀ (v : Value) (top_level : Bool),
      typeToXml c2Env c2Ns 1 ⟨0, "CRSType"⟩ v top_level
        = .ok [.start "ns0:CRSType" (if top_level then nsAttrs c2Ns else []),
            .text "0", .stop]) ∧
    SEvent.text "0" ≠ SEvent.text "BSK" := by
  refine ⟨fun v top_level => ?_, by decide⟩
  cases top_level <;> rfl

/-! ### C4: namespace declarations sit on the body-content root only -/

/-- Every start tag in the list carries an empty attribute list. -/
def startsNoAttrs (evs : List SEvent) : Bool :=
  evs.all fun e =>
    match e with
    | .start _ a => a.isEmpty
    | _ => true

theorem startsNoAttrs_spec {evs : List SEvent} (h : startsNoAttrs evs = true) :
    ∀ nm a, SEvent.start nm a ∈ evs → a = [] := by
  intro nm a hm
  have := List.all_eq_true.mp h _ hm
  simpa [List.isEmpty_iff] using this

theorem startsNoAttrs_append {xs ys : List SEvent} :
    startsNoAttrs (xs ++ ys) = (startsNoAttrs xs && startsNoAttrs ys) :=
  List.all_append

theorem startsNoAttrs_cons_start_nil {n : String} {evs : List SEvent} :
    startsNoAttrs (.start n [] :: evs) = startsNoAttrs evs := rfl

theorem toXmlGo_nested_attrs (env : List TypeDecl) (ns : Namespaces) :
    ∀ fuel (task : XmlTask) (evs : List SEvent),
      toXmlGo env ns fuel task false = .ok evs → startsNoAttrs evs = true := by
  intro fuel
  induction fuel with
  | zero =>
    intro task evs h
    exact Outcome.noConfusion h
  | succ fuel ih =>
    rintro (⟨tyName, v⟩ | ⟨fname, tyn | ik, v⟩ | ⟨fields, vs⟩) evs h
    · unfold toXmlGo at h
      split at h
      · exact Outcome.noConfusion h
      · split at h
        · exact Outcome.noConfusion h
        · cases Outcome.ok.inj h
          rfl
      · split at h
        · obtain ⟨evs1, h1, h2⟩ := Outcome.bind_eq_ok h
          cases Outcome.ok.inj h2
          have hh := ih _ _ h1
          show startsNoAttrs ((SEvent.start (xmlName tyName) [] :: evs1) ++ [SEvent.stop]) = true
          rw [startsNoAttrs_append, startsNoAttrs_cons_start_nil, hh]
          rfl
        · exact Outcome.noConfusion h
      · exact Outcome.noConfusion h
    · unfold toXmlGo at h
      split at h
      · split at h
        · cases Outcome.ok.inj h
          rfl
        · exact Outcome.noConfusion h
      · exact ih _ _ h
    · rcases ik with flds | b | tg
      · rcases flds with _ | ⟨⟨fn2, fty⟩, rest⟩
        · exact Outcome.noConfusion h
        · rcases rest with _ | ⟨f2, rest2⟩
          · exact ih (.ofField fname fty v) evs h
          · exact Outcome.noConfusion h
      · exact Outcome.noConfusion h
      · exact Outcome.noConfusion h
    · rcases fields with _ | ⟨⟨fn, fty⟩, fs⟩
      · rcases vs with _ | ⟨v, vs⟩
        · cases Outcome.ok.inj h
          rfl
        · exact Outcome.noConfusion h
      · rcases vs with _ | ⟨v, vs⟩
        · exact Outcome.noConfusion h
        · obtain ⟨evs1, h1, h2⟩ := Outcome.bind_eq_ok h
          obtain ⟨evs2, h3, h4⟩ := Outcome.bind_eq_ok h2
          cases Outcome.ok.inj h4
          rw [startsNoAttrs_append, ih _ _ h1, ih _ _ h3]
          rfl

theorem typeToXml_top_shape (env : List TypeDecl) (ns : Namespaces) :
    ∀ (fuel : Nat) (tyName : NamespacedName) (v : Value) (evs : List SEvent),
      toXmlGo env ns fuel (.ofType tyName v) true = .ok evs →
      ∃ tail, evs = .start (xmlName tyName) (nsAttrs ns) :: tail ∧
        startsNoAttrs tail = true := by
  intro fuel tyName v evs h
  match fuel, h with
  | 0, h => exact Outcome.noConfusion h
  | fuel + 1, h =>
    unfold toXmlGo at h
    split at h
    · exact Outcome.noConfusion h
    · split at h
      · exact Outcome.noConfusion h
      · cases Outcome.ok.inj h
        exact ⟨[.text ⟨formatNat 0⟩, .stop], rfl, rfl⟩
    · split at h
      · obtain ⟨evs1, h1, h2⟩ := Outcome.bind_eq_ok h
        cases Outcome.ok.inj h2
        refine ⟨_, rfl, ?_⟩
        show startsNoAttrs (evs1 ++ [SEvent.stop]) = true
        rw [startsNoAttrs_append, toXmlGo_nested_attrs env ns fuel _ _ h1]
        rfl
      · exact Outcome.noConfusion h
    · exact Outcome.noConfusion h

/-- **C4.** For a message whose single part references a non-built-in
(generated) type, serializing `Envelope<T>` with `to_request`'s
`top_level = true` yields: a `soapenv:Envelope` start tag carrying exactly
the single `xmlns:soapenv` declaration, a `soapenv:Body` start tag with no
attributes, and the message body serialized with `top_level = true` — so the
root element of the body content carries the `xmlns:ns{i}` declarations (one
per entry of the `Namespaces` table, in order) and every other start tag
inside the body carries none. -/
theorem envelope_namespace_declarations (env : List TypeDecl) (ns : Namespaces)
    (fuel : Nat) (m : Message) (fname tyName : NamespacedName) (v : Value)
    (evs : List SEvent)
    (hparts : m.parts = [Field.mk fname (.Ty tyName)])
    (hty : get_ty_ident tyName.name = none)
    (h : envelopeToXml env ns fuel m v = .ok evs) :
    ∃ tail,
      evs = .start "soapenv:Envelope"
            [("xmlns:soapenv", "http://schemas.xmlsoap.org/soap/envelope/")] ::
          .start "soapenv:Body" [] ::
          (.start (xmlName tyName) (nsAttrs ns) :: tail) ++ [.stop, .stop] ∧
      startsNoAttrs tail = true ∧
      (nsAttrs ns).length = ns.length ∧
      messageToXml env ns fuel m v true
        = .ok (.start (xmlName tyName) (nsAttrs ns) :: tail) := by
  obtain ⟨body, h1, h2⟩ := Outcome.bind_eq_ok h
  cases Outcome.ok.inj h2
  rcases v with b | i | n | s | vs
  case vBool => exact Outcome.noConfusion h1
  case vInt => exact Outcome.noConfusion h1
  case vNat => exact Outcome.noConfusion h1
  case vString => exact Outcome.noConfusion h1
  have hmsg : messageToXml env ns fuel m (.vStruct vs) true = .ok body := h1
  replace h1 : toXmlGo env ns fuel (.ofFields m.parts vs) true = .ok body := h1
  rw [hparts] at h1
  match fuel, h1, hmsg with
  | 0, h1, hmsg => exact Outcome.noConfusion h1
  | fuel + 1, h1, hmsg =>
    rcases vs with _ | ⟨v1, vs1⟩
    · exact Outcome.noConfusion h1
    · obtain ⟨evs1, hf, h3⟩ := Outcome.bind_eq_ok h1
      obtain ⟨evs2, hrest, h4⟩ := Outcome.bind_eq_ok h3
      cases Outcome.ok.inj h4
      rcases vs1 with _ | ⟨v2, vs2⟩
      · match fuel, hf, hrest, hmsg with
        | 0, hf, hrest, hmsg => exact Outcome.noConfusion hrest
        | fuel + 1, hf, hrest, hmsg =>
          cases Outcome.ok.inj hrest
          replace hf : toXmlGo env ns fuel (.ofType tyName v1) true = .ok evs1 := by
            unfold toXmlGo at hf
            rw [hty] at hf
            exact hf
          obtain ⟨tail, rfl, htail⟩ := typeToXml_top_shape env ns fuel tyName v1 evs1 hf
          refine ⟨tail, ?_, htail, ?_, ?_⟩
          · simp
          · simp [nsAttrs]
          · rw [hmsg]
            simp
      · match fuel, hrest with
        | 0, hrest => exact Outcome.noConfusion hrest
        | fuel + 1, hrest => exact Outcome.noConfusion hrest

/-- A two-namespace table and a one-struct model for the C4 witness. -/
def c4Env : List TypeDecl :=
  [⟨⟨0, "Req"⟩, .Struct [Field.mk ⟨0, "count"⟩ (.Ty ⟨0, "unsignedShort"⟩)]⟩]

def c4Ns : Namespaces := ["urn:a", "urn:b"]

def c4Msg : Message := ⟨⟨0, "Msg"⟩, [Field.mk ⟨0, "req"⟩ (.Ty ⟨0, "Req"⟩)]⟩

def c4Val : Value := .vStruct [.vStruct [.vNat 7]]

def c4Evs : List SEvent :=
  [.start "soapenv:Envelope"
      [("xmlns:soapenv", "http://schemas.xmlsoap.org/soap/envelope/")],
    .start "soapenv:Body" [],
    .start "ns0:Req" [("xmlns:ns0", "urn:a"), ("xmlns:ns1", "urn:b")],
    .start "ns0:count" [], .text "7", .stop,
    .stop, .stop, .stop]

/-- Witness for **C4** at a concrete envelope serialization. -/
theorem envelope_namespace_declarations_witness :
    ∃ tail,
      c4Evs = .start "soapenv:Envelope"
            [("xmlns:soapenv", "http://schemas.xmlsoap.org/soap/envelope/")] ::
          .start "soapenv:Body" [] ::
          (.start (xmlName ⟨0, "Req"⟩) (nsAttrs c4Ns) :: tail) ++ [.stop, .stop] ∧
      startsNoAttrs tail = true ∧
      (nsAttrs c4Ns).length = c4Ns.length ∧
      messageToXml c4Env c4Ns 8 c4Msg c4Val true
        = .ok (.start (xmlName ⟨0, "Req"⟩) (nsAttrs c4Ns) :: tail) :=
  envelope_namespace_declarations c4Env c4Ns 8 c4Msg ⟨0, "req"⟩ ⟨0, "Req"⟩ c4Val c4Evs
    rfl rfl rfl

/-! ### C1: the envelope round trip -/

/-- A string that survives the reader's `trim_text(true)`: trimming is the
identity and it is nonempty (an empty text node is simply never produced as
an event on the reader side). -/
def goodString (s : String) : Bool :=
  trimChars s.data == s.data && !s.data.isEmpty

/-- The value is of the built-in Rust type generated for the XSD name `ty`
(strings additionally trim-invariant and nonempty). -/
def goodPrim (ty : String) (v : Value) : Bool :=
  match ty, v with
  | "boolean", .vBool _ => true
  | "int", .vInt _ => true
  | "unsignedShort", .vNat _ => true
  | "unsignedInt", .vNat _ => true
  | "dateTime", .vString s => goodString s
  | "string", .vString s => goodString s
  | _, _ => false

/-- The value fits the task's type shape, the whole type graph reachable from
it consists of built-ins and `Struct`s only (no `Simple`, no `Alias`), and
every string in it is trim-invariant and nonempty. -/
def goodGo (env : List TypeDecl) : Nat → XmlTask → Bool
  | 0, _ => false
  | fuel + 1, .ofType tyName v =>
    match lookupType env tyName with
    | some (.Struct fields) =>
      match v with
      | .vStruct vs => goodGo env fuel (.ofFields fields vs)
      | _ => false
    | _ => false
  | fuel + 1, .ofField _ (.Ty ty) v =>
    match get_ty_ident ty.name with
    | some _ => goodPrim ty.name v
    | none => goodGo env fuel (.ofType ty v)
  | fuel + 1, .ofField fname (.Inner (.Struct [.mk _ fty])) v =>
    goodGo env fuel (.ofField fname fty v)
  | _ + 1, .ofField _ (.Inner _) _ => false
  | _ + 1, .ofFields [] [] => true
  | fuel + 1, .ofFields (.mk fname fty :: fs) (v :: vs) =>
    goodGo env fuel (.ofField fname fty v) && goodGo env fuel (.ofFields fs vs)
  | _ + 1, .ofFields _ _ => false

def goodMessage (env : List TypeDecl) (fuel : Nat) (m : Message) (v : Value) : Bool :=
  match v with
  | .vStruct vs => goodGo env fuel (.ofFields m.parts vs)
  | _ => false

theorem readerView_nil : readerView [] = [] := rfl

theorem readerView_cons_start {n : String} {a : List (String × String)}
    {evs : List SEvent} : readerView (.start n a :: evs) = .start n a :: readerView evs :=
  rfl

theorem readerView_cons_stop {evs : List SEvent} :
    readerView (.stop :: evs) = .stop :: readerView evs := rfl

theorem readerView_append {xs ys : List SEvent} :
    readerView (xs ++ ys) = readerView xs ++ readerView ys :=
  List.filterMap_append xs ys _

theorem readerView_cons_text_good {s : String} {evs : List SEvent}
    (h1 : trimChars s.data = s.data) (h2 : s.data ≠ []) :
    readerView (.text s :: evs) = .text s :: readerView evs := by
  have hv : viewEvent (.text s) = some (.text s) := by
    show (if trimChars s.data = [] then none else some (SEvent.text (trimString s)))
      = some (SEvent.text s)
    rw [h1, if_neg h2, show trimString s = s from by unfold trimString; rw [h1]]
  unfold readerView
  rw [List.filterMap_cons, hv]

/-- `parse ∘ Display` is the identity for the built-in types (with good
strings), and the rendering itself is a good text node. -/
theorem parseBuiltin_renderPrim {ty : String} {v : Value} (h : goodPrim ty v = true) :
    ∃ s, renderPrim v = some s ∧ parseBuiltin ty s = .ok v ∧
      trimChars s.data = s.data ∧ s.data ≠ [] := by
  unfold goodPrim at h
  split at h
  · next b =>
    refine ⟨⟨formatBool b⟩, rfl, ?_, ?_, ?_⟩
    · show (match parseBool (formatBool b) with
        | some b => Outcome.ok (Value.vBool b)
        | none => Outcome.panic) = _
      rw [parseBool_formatBool]
    · exact (trim_formatBool b).1
    · exact (trim_formatBool b).2
  · next i =>
    refine ⟨⟨formatInt i⟩, rfl, ?_, ?_, ?_⟩
    · show (match parseInt (formatInt i) with
        | some i => Outcome.ok (Value.vInt i)
        | none => Outcome.panic) = _
      rw [parseInt_formatInt]
    · exact (trim_formatInt i).1
    · exact (trim_formatInt i).2
  · next n =>
    refine ⟨⟨formatNat n⟩, rfl, ?_, ?_, ?_⟩
    · show (match parseNat (formatNat n) with
        | some n => Outcome.ok (Value.vNat n)
        | none => Outcome.panic) = _
      rw [parseNat_formatNat]
    · exact (trim_formatNat n).1
    · exact (trim_formatNat n).2
  · next n =>
    refine ⟨⟨formatNat n⟩, rfl, ?_, ?_, ?_⟩
    · show (match parseNat (formatNat n) with
        | some n => Outcome.ok (Value.vNat n)
        | none => Outcome.panic) = _
      rw [parseNat_formatNat]
    · exact (trim_formatNat n).1
    · exact (trim_formatNat n).2
  · next s =>
    unfold goodString at h
    rw [Bool.and_eq_true] at h
    obtain ⟨h1, h2⟩ := h
    refine ⟨s, rfl, rfl, beq_iff_eq.mp h1, ?_⟩
    intro hnil
    rw [hnil] at h2
    simp at h2
  · next s =>
    unfold goodString at h
    rw [Bool.and_eq_true] at h
    obtain ⟨h1, h2⟩ := h
    refine ⟨s, rfl, rfl, beq_iff_eq.mp h1, ?_⟩
    intro hnil
    rw [hnil] at h2
    simp at h2
  · exact Bool.noConfusion h

theorem expect_start_cons {n name : String} {a : List (String × String)}
    {rest : List SEvent} (h : local_name n = name) :
    expect_start (.start n a :: rest) name = .ok rest := by
  show (if local_name n = name then Outcome.ok rest else Outcome.panic) = Outcome.ok rest
  rw [if_pos h]

/-- The serialize/deserialize round trip for every shape of generated code,
by induction on fuel: a good value serializes successfully, its event stream
is untouched by the reader's trimming, and deserializing it from the front
of any stream returns exactly the value and the leftover stream. -/
theorem roundtripGo (env : List TypeDecl) (ns : Namespaces) : ∀ fuel : Nat,
    (∀ (tyName : NamespacedName) (v : Value) (top_level : Bool),
      goodGo env fuel (.ofType tyName v) = true →
      ∃ evs, toXmlGo env ns fuel (.ofType tyName v) top_level = .ok evs ∧
        readerView evs = evs ∧
        ∀ rest, fromXmlGo env fuel (.ofType tyName) (evs ++ rest) = .ok (v, rest)) ∧
    (∀ (fname : NamespacedName) (kind : FieldKind) (v : Value) (top_level : Bool),
      goodGo env fuel (.ofField fname kind v) = true →
      ∃ evs, toXmlGo env ns fuel (.ofField fname kind v) top_level = .ok evs ∧
        readerView evs = evs ∧
        ∀ rest, fromXmlGo env fuel (.ofField fname kind) (evs ++ rest) = .ok (v, rest)) ∧
    (∀ (fields : List Field) (vs : List Value) (top_level : Bool),
      goodGo env fuel (.ofFields fields vs) = true →
      ∃ evs, toXmlGo env ns fuel (.ofFields fields vs) top_level = .ok evs ∧
        readerView evs = evs ∧
        ∀ rest, fromXmlGo env fuel (.ofFields fields) (evs ++ rest)
          = .ok (.vStruct vs, rest)) := by
  intro fuel
  induction fuel with
  | zero =>
    exact ⟨fun _ _ _ h => Bool.noConfusion h, fun _ _ _ _ h => Bool.noConfusion h,
      fun _ _ _ h => Bool.noConfusion h⟩
  | succ fuel ih =>
    obtain ⟨ihT, ihF, ihS⟩ := ih
    refine ⟨?_, ?_, ?_⟩
    · intro tyName v top_level h
      unfold goodGo at h
      rcases heq : lookupType env tyName with _ | k
      · rw [heq] at h
        exact Bool.noConfusion h
      · rw [heq] at h
        rcases k with fields | b | tg
        case Simple => exact Bool.noConfusion h
        case Alias => exact Bool.noConfusion h
        rcases v with b | i | n | str | vs
        case vBool => exact Bool.noConfusion h
        case vInt => exact Bool.noConfusion h
        case vNat => exact Bool.noConfusion h
        case vString => exact Bool.noConfusion h
        · obtain ⟨fevs, hto, hview, hfrom⟩ := ihS fields vs false h
          refine ⟨.start (xmlName tyName) (if top_level then nsAttrs ns else []) ::
            fevs ++ [.stop], ?_, ?_, ?_⟩
          · unfold toXmlGo
            rw [heq]
            show Outcome.bind (toXmlGo env ns fuel (.ofFields fields vs) false) (fun evs =>
              Outcome.ok (.start (xmlName tyName) (if top_level then nsAttrs ns else []) ::
                evs ++ [.stop])) = _
            rw [hto]
            rfl
          · rw [readerView_append, readerView_cons_start, hview]
            rfl
          · intro rest
            unfold fromXmlGo
            rw [heq]
            show Outcome.bind (expect_start
                (((SEvent.start (xmlName tyName) (if top_level then nsAttrs ns else [])
                  :: fevs) ++ [SEvent.stop]) ++ rest) tyName.name)
              (fun ev1 => Outcome.bind (fromXmlGo env fuel (.ofFields fields) ev1) fun r =>
                Outcome.bind (expect_end r.2) fun ev2 => Outcome.ok (r.1, ev2))
              = Outcome.ok (Value.vStruct vs, rest)
            simp only [List.cons_append, List.append_assoc, List.singleton_append]
            rw [expect_start_cons (local_name_xmlName tyName)]
            show Outcome.bind (fromXmlGo env fuel (.ofFields fields)
                (fevs ++ (SEvent.stop :: rest)))
              (fun r => Outcome.bind (expect_end r.2) fun ev2 => Outcome.ok (r.1, ev2))
              = Outcome.ok (Value.vStruct vs, rest)
            rw [hfrom (SEvent.stop :: rest)]
            rfl
    · intro fname kind v top_level h
      rcases kind with ty | ik
      · unfold goodGo at h
        rcases heq : get_ty_ident ty.name with _ | ident
        case some =>
          rw [heq] at h
          obtain ⟨s, hrender, hparse, htrim, hne⟩ := parseBuiltin_renderPrim h
          refine ⟨[.start (xmlName fname) [], .text s, .stop], ?_, ?_, ?_⟩
          · unfold toXmlGo
            rw [heq, hrender]
          · rw [readerView_cons_start, readerView_cons_text_good htrim hne,
              readerView_cons_stop, readerView_nil]
          · intro rest
            unfold fromXmlGo
            rw [heq]
            show Outcome.bind (expect_start
                ([SEvent.start (xmlName fname) [], SEvent.text s, SEvent.stop] ++ rest)
                fname.name)
              (fun ev1 => Outcome.bind (expect_value ev1) fun r =>
                Outcome.bind (expect_end r.2) fun ev2 =>
                  Outcome.bind (parseBuiltin ty.name r.1) fun w => Outcome.ok (w, ev2))
              = Outcome.ok (v, rest)
            simp only [List.cons_append, List.nil_append]
            rw [expect_start_cons (local_name_xmlName fname)]
            show Outcome.bind (parseBuiltin ty.name s) (fun w => Outcome.ok (w, rest))
              = Outcome.ok (v, rest)
            rw [hparse]
            rfl
        case none =>
          rw [heq] at h
          obtain ⟨evs, hto, hview, hfrom⟩ := ihT ty v top_level h
          refine ⟨evs, ?_, hview, ?_⟩
          · unfold toXmlGo
            rw [heq]
            exact hto
          · intro rest
            unfold fromXmlGo
            rw [heq]
            exact hfrom rest
      · rcases ik with flds | b | tg
        · rcases flds with _ | ⟨⟨fn2, fty⟩, rest2⟩
          · exact Bool.noConfusion h
          · rcases rest2 with _ | ⟨f2, rest3⟩
            · obtain ⟨evs, hto, hview, hfrom⟩ := ihF fname fty v top_level h
              exact ⟨evs, hto, hview, hfrom⟩
            · exact Bool.noConfusion h
        · exact Bool.noConfusion h
        · exact Bool.noConfusion h
    · intro fields vs top_level h
      rcases fields with _ | ⟨⟨fn, fty⟩, fs⟩
      · rcases vs with _ | ⟨v, vs⟩
        · exact ⟨[], rfl, rfl, fun rest => rfl⟩
        · exact Bool.noConfusion h
      · rcases vs with _ | ⟨v, vs⟩
        · exact Bool.noConfusion h
        · replace h : (goodGo env fuel (.ofField fn fty v)
              && goodGo env fuel (.ofFields fs vs)) = true := h
          rw [Bool.and_eq_true] at h
          obtain ⟨evs1, hto1, hview1, hfrom1⟩ := ihF fn fty v top_level h.1
          obtain ⟨evs2, hto2, hview2, hfrom2⟩ := ihS fs vs top_level h.2
          refine ⟨evs1 ++ evs2, ?_, ?_, ?_⟩
          · show Outcome.bind (toXmlGo env ns fuel (.ofField fn fty v) top_level)
              (fun e1 => Outcome.bind (toXmlGo env ns fuel (.ofFields fs vs) top_level)
                fun e2 => Outcome.ok (e1 ++ e2)) = _
            rw [hto1]
            show Outcome.bind (toXmlGo env ns fuel (.ofFields fs vs) top_level)
              (fun e2 => Outcome.ok (evs1 ++ e2)) = _
            rw [hto2]
            rfl
          · rw [readerView_append, hview1, hview2]
          · intro rest
            show Outcome.bind (fromXmlGo env fuel (.ofField fn fty) ((evs1 ++ evs2) ++ rest))
              (fun r => Outcome.bind (fromXmlGo env fuel (.ofFields fs) r.2)
                fun rs => consField r rs)
              = Outcome.ok (.vStruct (v :: vs), rest)
            rw [List.append_assoc, hfrom1 (evs2 ++ rest)]
            show Outcome.bind (fromXmlGo env fuel (.ofFields fs) (evs2 ++ rest))
              (fun rs => consField (v, evs2 ++ rest) rs)
              = Outcome.ok (.vStruct (v :: vs), rest)
            rw [hfrom2 rest]
            rfl

/-- A message with a single string part, for the C1 counterexample. -/
def c1Message : Message := ⟨⟨0, "M"⟩, [Field.mk ⟨0, "x"⟩ (.Ty ⟨0, "string"⟩)]⟩

/-- **C1 counterexample.** The round trip is *not* the identity for every
value over built-ins and structs: a message holding the empty string
serializes to `<ns0:x></ns0:x>` — the writer emits no text event for an
empty string, and the reader (configured with `trim_text(true)`) never
produces one — so `expect_value` meets the end tag and its `.unwrap()`
panics instead of returning the original value. -/
theorem envelope_roundtrip_fails_on_empty_string :
    Outcome.bind (envelopeToXml [] [] 4 c1Message (.vStruct [.vString ""]))
      (fun evs => envelopeFromXml [] 4 c1Message (readerView evs)) = .panic := rfl

/-- **C1 (amended).** `Envelope::from_xml ∘ Envelope::to_xml` is the identity
for every message value whose type graph contains only built-in primitives
and `Struct` types, *provided* every string in the value is trim-invariant
and nonempty (`goodMessage` also excludes `Simple` and `Alias` nodes from
the graph — `Simple` is covered by the C2 bug). The reader's view (trimming,
and dropping whitespace-only indentation) leaves the serialized stream
untouched, and deserialization returns exactly the original value. -/
theorem envelope_roundtrip (env : List TypeDecl) (ns : Namespaces) (fuel : Nat)
    (m : Message) (v : Value) (hgood : goodMessage env fuel m v = true) :
    ∃ evs, envelopeToXml env ns fuel m v = .ok evs ∧
      envelopeFromXml env fuel m (readerView evs) = .ok (v, []) := by
  rcases v with b | i | n | str | vs
  case vBool => exact Bool.noConfusion hgood
  case vInt => exact Bool.noConfusion hgood
  case vNat => exact Bool.noConfusion hgood
  case vString => exact Bool.noConfusion hgood
  replace hgood : goodGo env fuel (.ofFields m.parts vs) = true := hgood
  obtain ⟨body, hto, hview, hfrom⟩ := (roundtripGo env ns fuel).2.2 m.parts vs true hgood
  refine ⟨.start "soapenv:Envelope"
        [("xmlns:soapenv", "http://schemas.xmlsoap.org/soap/envelope/")] ::
      .start "soapenv:Body" [] :: body ++ [.stop, .stop], ?_, ?_⟩
  · show Outcome.bind (toXmlGo env ns fuel (.ofFields m.parts vs) true)
      (fun b => Outcome.ok (.start "soapenv:Envelope"
          [("xmlns:soapenv", "http://schemas.xmlsoap.org/soap/envelope/")] ::
        .start "soapenv:Body" [] :: b ++ [.stop, .stop])) = _
    rw [hto]
    rfl
  · have hv : readerView ((SEvent.start "soapenv:Envelope"
          [("xmlns:soapenv", "http://schemas.xmlsoap.org/soap/envelope/")] ::
        SEvent.start "soapenv:Body" [] :: body) ++ [SEvent.stop, SEvent.stop])
        = (SEvent.start "soapenv:Envelope"
            [("xmlns:soapenv", "http://schemas.xmlsoap.org/soap/envelope/")] ::
          SEvent.start "soapenv:Body" [] :: body) ++ [SEvent.stop, SEvent.stop] := by
      rw [readerView_append, readerView_cons_start, readerView_cons_start, hview]
      rfl
    rw [hv]
    show Outcome.bind (fromXmlGo env fuel (.ofFields m.parts)
        (body ++ [SEvent.stop, SEvent.stop]))
      (fun r => Outcome.bind (expect_end r.2) fun e3 =>
        Outcome.bind (expect_end e3) fun e4 => Outcome.ok (r.1, e4))
      = Outcome.ok (Value.vStruct vs, [])
    rw [hfrom [SEvent.stop, SEvent.stop]]
    rfl

/-- A concrete two-field struct model for the C1 witness. -/
def c1GoodEnv : List TypeDecl :=
  [⟨⟨0, "Req"⟩, .Struct [Field.mk ⟨0, "flag"⟩ (.Ty ⟨0, "boolean"⟩),
    Field.mk ⟨0, "label"⟩ (.Ty ⟨0, "string"⟩)]⟩]

def c1GoodMsg : Message := ⟨⟨0, "Msg"⟩, [Field.mk ⟨0, "req"⟩ (.Ty ⟨0, "Req"⟩)]⟩

def c1GoodVal : Value := .vStruct [.vStruct [.vBool true, .vString "hello"]]

/-- Witness for **C1 (amended)** at a concrete message value. -/
theorem envelope_roundtrip_witness :
    goodMessage c1GoodEnv 8 c1GoodMsg c1GoodVal = true ∧
    ∃ evs, envelopeToXml c1GoodEnv ["urn:x"] 8 c1GoodMsg c1GoodVal = .ok evs ∧
      envelopeFromXml c1GoodEnv 8 c1GoodMsg (readerView evs) = .ok (c1GoodVal, []) :=
  ⟨rfl, envelope_roundtrip c1GoodEnv ["urn:x"] 8 c1GoodMsg c1GoodVal rfl⟩

end Suds
